import Mathlib

/-!
Shallow embedding of `vpype_cli/operations.py`: the `LineIndex` spatial index
(tombstone-based soft deletion over KD-tree snapshots) and the `linemerge`
and `linesort` operations built on it.

Modelling conventions:
* 2D points (complex floats in the source) are pairs of rationals; all
  arithmetic is exact.
* The external KD-tree (`scipy.spatial.cKDTree`) is modelled by its contract:
  `query(p, k, distance_upper_bound)` returns the `k` nearest entries within
  the bound, sorted by increasing distance; entries past the bound or past
  the number of points are reported at infinite distance, modelled here by
  truncating the candidate list to the in-range entries.  All distances are
  squared Euclidean distances; the source compares true Euclidean distances,
  and the two agree on every comparison performed because squaring is
  monotone on nonnegative values.
* Python `while` loops become fuel-indexed recursions returning `Option`;
  `none` models fuel exhaustion or a Python run-time error: popping an
  unavailable entry mid-loop, or rebuilding the KD-tree over an empty point
  set (`cKDTree` rejects an empty array, so `_reindex` raises when every
  entry is tombstoned).  The lemmas below show the fuel bounds used are
  never the cause of a `none`; the empty-rebuild error is reachable and is
  kept.
-/

namespace Vpype

/-- A 2D point `(x, y)`.  The source stores points as complex floats. -/
abbrev Point := ℚ × ℚ

/-- A polyline: an ordered list of points. -/
abbrev Polyline := List Point

/-- Squared Euclidean distance between two points. -/
def distSq (p q : Point) : ℚ := (p.1 - q.1) ^ 2 + (p.2 - q.2) ^ 2

/-- First point of a polyline (`line[0]`). -/
def lineStart (l : Polyline) : Point := l.headD (0, 0)

/-- Last point of a polyline (`line[-1]`). -/
def lineEnd (l : Polyline) : Point := l.getLastD (0, 0)

/-- `np.flip`: reverse the point order of a polyline. -/
def flipLine (l : Polyline) : Polyline := l.reverse

/-- The midpoint `0.5 * (p + q)` of two points. -/
def midpoint (p q : Point) : Point := ((p.1 + q.1) / 2, (p.2 + q.2) / 2)

/-- `np.hstack([line[:-1], 0.5 * (line[-1] + new_line[0]), new_line[1:]])`:
splice `l2` onto the end of `l1`, replacing the two facing boundary points
with their midpoint. -/
def splice (l1 l2 : Polyline) : Polyline :=
  l1.dropLast ++ midpoint (lineEnd l1) (lineStart l2) :: l2.tail

/-- State of the `LineIndex` class: the stored polylines paired with their
availability flags (the source keeps a parallel `available` bool array),
plus the `reverse` option (whether line endings are indexed as well).  The
KD-tree snapshots are recomputed from `entries` on demand, which is faithful
because the source rebuilds both trees whenever `self.lines` changes. -/
structure LineIndex where
  entries : List (Polyline × Bool)
  reverse : Bool
deriving DecidableEq

/-- The availability bitset (`self.available`). -/
def availList (st : LineIndex) : List Bool := st.entries.map (·.2)

/-- Start points of the stored lines (the data of the main KD-tree). -/
def startPts (st : LineIndex) : List Point := st.entries.map (fun e => lineStart e.1)

/-- End points of the stored lines (the data of the reverse KD-tree). -/
def endPts (st : LineIndex) : List Point := st.entries.map (fun e => lineEnd e.1)

/-- `len(self)`: the number of available entries. -/
def liveCount (st : LineIndex) : Nat := st.entries.countP (·.2)

/-- The available polylines, in storage order. -/
def liveLines (st : LineIndex) : List Polyline := (st.entries.filter (·.2)).map (·.1)

/-- `_reindex`: drop the tombstoned entries and rebuild via `_make_index`.
The surviving entries are all available, exactly as `_make_index` resets
`available` to all ones.  When no entry survives, `_make_index` constructs
the KD-tree over an empty point set, which the KD-tree library rejects (an
empty array is not a valid point matrix), so the rebuild raises instead of
returning: modelled as `none`. -/
def reindex (st : LineIndex) : Option LineIndex :=
  if st.entries.filter (·.2) = [] then none
  else some { st with entries := st.entries.filter (·.2) }

/-- `pop(idx)`: tombstone entry `idx` and return its line, or `None` if the
entry is already unavailable. -/
def pop (st : LineIndex) (idx : Nat) : LineIndex × Option Polyline :=
  let e := st.entries.getD idx ([], false)
  if e.2 then
    ({ st with entries := st.entries.set idx (e.1, false) }, some e.1)
  else (st, none)

/-- `pop_front()`: tombstone and return the first available entry
(`np.argmax(self.available)`), or `None` when no entry is available. -/
def popFront (st : LineIndex) : LineIndex × Option Polyline :=
  match st.entries.findIdx? (·.2) with
  | none => (st, none)
  | some idx => pop st idx

/-- The indices of `pts` paired with their squared distance to `p` (the data
ranked by a KD-tree query). -/
def distPairs (pts : List Point) (p : Point) : List (Nat × ℚ) :=
  (List.range pts.length).map fun i => (i, distSq (pts.getD i (0, 0)) p)

/-- The entries within `maxDist` of `p`: the finite-distance results of a
bounded KD-tree query (a negative bound admits nothing, since Euclidean
distances are nonnegative). -/
def inRangePairs (pts : List Point) (p : Point) (maxDist : ℚ) : List (Nat × ℚ) :=
  if maxDist < 0 then []
  else (distPairs pts p).filter fun e => decide (e.2 ≤ maxDist ^ 2)

/-- Insert into a list sorted by increasing distance (ties by index). -/
def insertPair (a : Nat × ℚ) : List (Nat × ℚ) → List (Nat × ℚ)
  | [] => [a]
  | b :: l =>
    if a.2 < b.2 ∨ (a.2 = b.2 ∧ a.1 ≤ b.1) then a :: b :: l
    else b :: insertPair a l

/-- Sort candidate entries by increasing distance (ties by index), the order
in which a KD-tree query reports its results. -/
def sortPairs : List (Nat × ℚ) → List (Nat × ℚ)
  | [] => []
  | a :: l => insertPair a (sortPairs l)

/-- `_find_nearest_within_in_index`: query the KD-tree for the `k = 50`
nearest candidates within `maxDist` and return `(reindex, idx, distSq)`.
A reindex is requested when all 50 returned candidates are at finite
distance yet none is available (the truncated sample cannot decide the
query); otherwise the nearest available candidate, if any, is returned. -/
def findNearestWithinInIndex (avail : List Bool) (pts : List Point) (p : Point)
    (maxDist : ℚ) : Bool × Option Nat × ℚ :=
  let inR := inRangePairs pts p maxDist
  let sample := (sortPairs inR).take 50
  if decide (50 ≤ inR.length) && sample.all (fun e => !(avail.getD e.1 false)) then
    (true, none, 0)
  else
    match sample.find? (fun e => avail.getD e.1 false) with
    | some e => (false, some e.1, e.2)
    | none => (false, none, 0)

/-- The retry loop of `find_nearest_within`, with fuel: query the start-point
tree and, if `reverse`, the end-point tree; restart after any requested
reindex.  A failing rebuild (no live entry left) aborts the whole run. -/
def findNearestWithinLoop (p : Point) (maxDist : ℚ) :
    LineIndex → Nat → Option (LineIndex × Option Nat × ℚ × Option Nat × ℚ)
  | _, 0 => none
  | st, fuel + 1 =>
    match findNearestWithinInIndex (availList st) (startPts st) p maxDist with
    | (true, _, _) =>
      match reindex st with
      | none => none
      | some st2 => findNearestWithinLoop p maxDist st2 fuel
    | (false, idx, d) =>
      if st.reverse then
        match findNearestWithinInIndex (availList st) (endPts st) p maxDist with
        | (true, _, _) =>
          match reindex st with
          | none => none
          | some st2 => findNearestWithinLoop p maxDist st2 fuel
        | (false, ridx, rd) => some (st, idx, d, ridx, rd)
      else some (st, idx, d, none, 0)

/-- `find_nearest_within(p, max_dist)`: returns `(idx, reverse)` where `idx`
may be `none` and `reverse` says whether a line ending was matched instead
of a start.  Fuel 2 always suffices: after one successful reindex every
entry is available and no further reindex can be requested
(`findNearestWithinLoop_stable` below). -/
def findNearestWithin (st : LineIndex) (p : Point) (maxDist : ℚ) :
    Option (LineIndex × Option Nat × Bool) :=
  match findNearestWithinLoop p maxDist st 2 with
  | none => none
  | some (st1, idx, d, ridx, rd) =>
    if st1.reverse then
      match idx, ridx with
      | none, none => some (st1, none, false)
      | some i, none => some (st1, some i, false)
      | none, some r => some (st1, some r, true)
      | some i, some r =>
        if rd < d then some (st1, some r, true) else some (st1, some i, false)
    else some (st1, idx, false)

/-- `_find_nearest_in_index`: scan the `k = 100` nearest candidates (no
distance bound) and return the first available one with its squared
distance, or `(none, 0)`. -/
def findNearestInIndex (avail : List Bool) (pts : List Point) (p : Point) :
    Option Nat × ℚ :=
  match ((sortPairs (distPairs pts p)).take 100).find? (fun e => avail.getD e.1 false) with
  | some e => (some e.1, e.2)
  | none => (none, 0)

/-- The retry loop of `find_nearest`, with the final reverse-arbitration
folded in (the source performs it immediately after breaking out of the
loop).  A failing rebuild (no live entry left) aborts the whole run. -/
def findNearestLoop (p : Point) : LineIndex → Nat → Option (LineIndex × Nat × Bool)
  | _, 0 => none
  | st, fuel + 1 =>
    let (idx, d) := findNearestInIndex (availList st) (startPts st) p
    if st.reverse then
      match idx, findNearestInIndex (availList st) (endPts st) p with
      | some i, (some r, rd) => some (st, if rd < d then (r, true) else (i, false))
      | _, _ =>
        match reindex st with
        | none => none
        | some st2 => findNearestLoop p st2 fuel
    else
      match idx with
      | some i => some (st, i, false)
      | none =>
        match reindex st with
        | none => none
        | some st2 => findNearestLoop p st2 fuel

/-- `find_nearest(p)`: unbounded nearest-available query.  Fuel 2 suffices
whenever at least one entry is available. -/
def findNearest (st : LineIndex) (p : Point) : Option (LineIndex × Nat × Bool) :=
  findNearestLoop p st 2

/-- One run of the inner chain-growing loop of `linemerge`, with fuel.  Each
iteration queries forward from the chain's end; on failure with reversal
enabled it queries from the chain's start and flips the chain; any found
line is popped, oriented, and spliced onto the chain. -/
def mergeChain (noFlip : Bool) (tolerance : ℚ) :
    LineIndex → Polyline → Nat → Option (LineIndex × Polyline)
  | _, _, 0 => none
  | st, line, fuel + 1 =>
    match findNearestWithin st (lineEnd line) tolerance with
    | none => none
    | some (st1, idx, rev) =>
      match idx, noFlip with
      | none, true => some (st1, line)
      | none, false =>
        match findNearestWithin st1 (lineStart line) tolerance with
        | none => none
        | some (st2, idx2, rev2) =>
          match idx2 with
          | none => some (st2, flipLine line)
          | some i =>
            match pop st2 i with
            | (_, none) => none
            | (st3, some nl) =>
              mergeChain noFlip tolerance st3
                (splice (flipLine line) (if rev2 then flipLine nl else nl)) fuel
      | some i, _ =>
        match pop st1 i with
        | (_, none) => none
        | (st3, some nl) =>
          mergeChain noFlip tolerance st3
            (splice line (if rev then flipLine nl else nl)) fuel

/-- The outer loop of `linemerge`: seed a chain from the first available
entry, grow it to completion, emit it, repeat while entries remain. -/
def linemergeLoop (noFlip : Bool) (tolerance : ℚ) :
    LineIndex → Nat → Option (List Polyline)
  | _, 0 => none
  | st, fuel + 1 =>
    match popFront st with
    | (_, none) => some []
    | (st1, some line) =>
      match mergeChain noFlip tolerance st1 line (liveCount st1 + 1) with
      | none => none
      | some (st2, chain) => (linemergeLoop noFlip tolerance st2 fuel).map (chain :: ·)

/-- `linemerge(lines, tolerance, no_flip)`: merge lines whose endings are
within `tolerance` of each other.  Collections with fewer than two lines are
returned unchanged. -/
def linemerge (lines : List Polyline) (tolerance : ℚ) (noFlip : Bool) :
    Option (List Polyline) :=
  if lines.length < 2 then some lines
  else
    linemergeLoop noFlip tolerance
      { entries := lines.map (·, true), reverse := !noFlip } (lines.length + 1)

/-- The loop of `linesort`: repeatedly pick the available line nearest to the
current cursor (the end of the last emitted line), orient it, emit it. -/
def linesortLoop : LineIndex → Polyline → Nat → Option (List Polyline)
  | _, _, 0 => none
  | st, cur, fuel + 1 =>
    if liveCount st = 0 then some []
    else
      match findNearest st (lineEnd cur) with
      | none => none
      | some (st1, i, rev) =>
        match pop st1 i with
        | (_, none) => none
        | (st2, some l) =>
          (linesortLoop st2 (if rev then flipLine l else l) fuel).map
            ((if rev then flipLine l else l) :: ·)

/-- `linesort(lines, no_flip)`: greedy nearest-neighbour reordering, the
first line fixed as the seed.  Collections with fewer than two lines are
returned unchanged. -/
def linesort (lines : List Polyline) (noFlip : Bool) : Option (List Polyline) :=
  if lines.length < 2 then some lines
  else
    match lines with
    | [] => some lines
    | l0 :: rest =>
      (linesortLoop { entries := rest.map (·, true), reverse := !noFlip } l0
        (lines.length + 1)).map (l0 :: ·)

/-- Total number of points in a collection of polylines. -/
def pointsOf (ls : List Polyline) : Nat := (ls.map List.length).sum

/-- Splice a nonempty list of polylines into a single chain, left to right,
in the given orientations. -/
def spliceFold : List Polyline → Polyline
  | [] => []
  | c :: rest => rest.foldl splice c

/-! ### Generic list lemmas -/

lemma find?_eq_some_of_unique {α} {p : α → Bool} {l : List α} {e : α}
    (hmem : e ∈ l) (hp : p e = true) (huniq : ∀ x ∈ l, p x = true → x = e) :
    l.find? p = some e := by
  induction l with
  | nil => cases hmem
  | cons a l ih =>
    by_cases ha : p a = true
    · have : a = e := huniq a (List.mem_cons_self a l) ha
      subst this
      simp [List.find?, ha]
    · have hne : e ≠ a := fun h => ha (h ▸ hp)
      have hmem' : e ∈ l := by
        rcases List.mem_cons.mp hmem with h | h
        · exact absurd h hne
        · exact h
      simp only [List.find?, Bool.not_eq_true] at ha ⊢
      rw [ha]
      exact ih hmem' (fun x hx hpx => huniq x (List.mem_cons_of_mem a hx) hpx)

lemma getD_append_length {α} (A : List α) (x : α) (B : List α) (d : α) :
    (A ++ x :: B).getD A.length d = x := by
  induction A with
  | nil => simp [List.getD]
  | cons a A ih => simpa [List.getD_cons_succ] using ih

lemma set_append_length {α} (A : List α) (x y : α) (B : List α) :
    (A ++ x :: B).set A.length y = A ++ y :: B := by
  induction A with
  | nil => simp
  | cons a A ih => simp [ih]

lemma getD_eq_default_of_le {α} (l : List α) (d : α) {i : Nat} (h : l.length ≤ i) :
    l.getD i d = d := by
  simp [List.getD_eq_getElem?_getD, List.getElem?_eq_none h]

lemma getD_mem_of_lt {α} (l : List α) (d : α) {i : Nat} (h : i < l.length) :
    l.getD i d ∈ l := by
  rw [List.getD_eq_getElem?_getD, List.getElem?_eq_getElem h]
  exact List.getElem_mem h

lemma findIdx?_none_of_all {α} {p : α → Bool} {l : List α}
    (h : ∀ x ∈ l, p x = false) : l.findIdx? p = none :=
  List.findIdx?_eq_none_iff.mpr h

lemma findIdx?_decomp {α} {p : α → Bool} {l : List α} {i : Nat}
    (h : l.findIdx? p = some i) :
    ∃ A x B, l = A ++ x :: B ∧ A.length = i ∧ p x = true := by
  induction l generalizing i with
  | nil => simp at h
  | cons a l ih =>
    rw [List.findIdx?_cons, List.findIdx?_succ] at h
    by_cases ha : p a = true
    · rw [if_pos ha] at h
      cases h
      exact ⟨[], a, l, rfl, rfl, ha⟩
    · rw [if_neg ha] at h
      rcases Option.map_eq_some'.mp h with ⟨j, hj, hji⟩
      rcases ih hj with ⟨A, x, B, hdec, hlen, hx⟩
      exact ⟨a :: A, x, B, by simp [hdec], by simp [hlen, ← hji], hx⟩

/-! ### Sorting and candidate-list lemmas -/

lemma mem_insertPair {a b : Nat × ℚ} {l : List (Nat × ℚ)} :
    b ∈ insertPair a l ↔ b = a ∨ b ∈ l := by
  induction l with
  | nil => simp [insertPair]
  | cons c l ih =>
    simp only [insertPair]
    split
    · simp [List.mem_cons]
    · simp only [List.mem_cons, ih]
      tauto

lemma mem_sortPairs {b : Nat × ℚ} {l : List (Nat × ℚ)} :
    b ∈ sortPairs l ↔ b ∈ l := by
  induction l with
  | nil => simp [sortPairs]
  | cons a l ih => simp [sortPairs, mem_insertPair, ih]

lemma length_insertPair (a : Nat × ℚ) (l : List (Nat × ℚ)) :
    (insertPair a l).length = l.length + 1 := by
  induction l with
  | nil => rfl
  | cons c l ih =>
    simp only [insertPair]
    split <;> simp [ih]

lemma length_sortPairs (l : List (Nat × ℚ)) : (sortPairs l).length = l.length := by
  induction l with
  | nil => rfl
  | cons a l ih => simp [sortPairs, length_insertPair, ih]

lemma mem_distPairs {pts : List Point} {p : Point} {e : Nat × ℚ} :
    e ∈ distPairs pts p ↔ e.1 < pts.length ∧ e.2 = distSq (pts.getD e.1 (0, 0)) p := by
  constructor
  · intro h
    rcases List.mem_map.mp h with ⟨i, hi, rfl⟩
    exact ⟨List.mem_range.mp hi, rfl⟩
  · intro ⟨h1, h2⟩
    refine List.mem_map.mpr ⟨e.1, List.mem_range.mpr h1, ?_⟩
    exact Prod.ext rfl h2.symm

lemma mem_inRangePairs {pts : List Point} {p : Point} {m : ℚ} {e : Nat × ℚ} :
    e ∈ inRangePairs pts p m ↔ ¬m < 0 ∧ e ∈ distPairs pts p ∧ e.2 ≤ m ^ 2 := by
  unfold inRangePairs
  split
  · simp_all
  · simp_all [List.mem_filter]

lemma length_inRangePairs_le (pts : List Point) (p : Point) (m : ℚ) :
    (inRangePairs pts p m).length ≤ pts.length := by
  unfold inRangePairs
  split
  · simp
  · calc ((distPairs pts p).filter _).length ≤ (distPairs pts p).length :=
        List.length_filter_le _ _
    _ = pts.length := by simp [distPairs]

/-! ### LineIndex state lemmas -/

lemma liveCount_eq_length_liveLines (st : LineIndex) :
    liveCount st = (liveLines st).length := by
  simp [liveCount, liveLines, List.countP_eq_length_filter]

lemma reindex_some_spec {st st' : LineIndex} (h : reindex st = some st') :
    st'.entries = st.entries.filter (·.2) ∧ st'.reverse = st.reverse := by
  unfold reindex at h
  split at h
  · exact Option.noConfusion h
  · injection h with h
    subst h
    exact ⟨rfl, rfl⟩

lemma liveLines_reindex {st st' : LineIndex} (h : reindex st = some st') :
    liveLines st' = liveLines st := by
  rcases reindex_some_spec h with ⟨he, _⟩
  simp [liveLines, he, List.filter_filter]

lemma reverse_reindex {st st' : LineIndex} (h : reindex st = some st') :
    st'.reverse = st.reverse := (reindex_some_spec h).2

lemma availList_reindex_all_true {st st' : LineIndex} (h : reindex st = some st') :
    ∀ b ∈ availList st', b = true := by
  rcases reindex_some_spec h with ⟨he, _⟩
  intro b hb
  rw [availList, he] at hb
  rcases List.mem_map.mp hb with ⟨e, hemem, rfl⟩
  exact List.of_mem_filter hemem

lemma reindex_none_iff (st : LineIndex) : reindex st = none ↔ liveCount st = 0 := by
  rw [liveCount, List.countP_eq_length_filter]
  unfold reindex
  split
  case isTrue hnil => simp [hnil]
  case isFalse hnil =>
    constructor
    · intro h
      exact Option.noConfusion h
    · intro h
      exact absurd (List.length_eq_zero.mp h) hnil

lemma reindex_some_of_live {st : LineIndex} (h : 0 < liveCount st) :
    ∃ st', reindex st = some st' := by
  cases hri : reindex st with
  | none =>
    rw [reindex_none_iff] at hri
    omega
  | some st' => exact ⟨st', rfl⟩

lemma length_availList (st : LineIndex) : (availList st).length = st.entries.length := by
  simp [availList]

lemma length_startPts (st : LineIndex) : (startPts st).length = st.entries.length := by
  simp [startPts]

lemma length_endPts (st : LineIndex) : (endPts st).length = st.entries.length := by
  simp [endPts]

lemma availList_getD (st : LineIndex) {i : Nat} (h : i < st.entries.length) :
    (availList st).getD i false = (st.entries.getD i ([], false)).2 := by
  simp [availList, List.getD_eq_getElem?_getD, List.getElem?_map,
    List.getElem?_eq_getElem h]

lemma list_pop_decomp {α} (l : List α) (i : Nat) (d : α) (h : i < l.length) :
    ∃ A B, l = A ++ l.getD i d :: B ∧ A.length = i ∧ ∀ y, l.set i y = A ++ y :: B := by
  induction l generalizing i with
  | nil => simp at h
  | cons a l ih =>
    cases i with
    | zero => exact ⟨[], l, by simp [List.getD], rfl, fun y => by simp⟩
    | succ i =>
      rcases ih _ (Nat.lt_of_succ_lt_succ h) with ⟨A, B, hdec, hlen, hset⟩
      refine ⟨a :: A, B, ?_, by simp [hlen], fun y => by simp [hset y]⟩
      rw [List.getD_cons_succ]
      simpa using hdec

lemma pop_some_spec {st : LineIndex} {i : Nat} {st' : LineIndex} {nl : Polyline}
    (h : pop st i = (st', some nl)) :
    ∃ A B, st.entries = A ++ (nl, true) :: B ∧ A.length = i ∧
      st'.entries = A ++ (nl, false) :: B ∧ st'.reverse = st.reverse := by
  simp only [pop] at h
  split at h
  case isTrue hflag =>
    have hlt : i < st.entries.length := by
      by_contra hge
      rw [getD_eq_default_of_le _ _ (Nat.le_of_not_lt hge)] at hflag
      simp at hflag
    rcases list_pop_decomp st.entries i ([], false) hlt with ⟨A, B, hdec, hlen, hset⟩
    injection h with h1 h2
    injection h2 with h2
    have hpair : st.entries.getD i ([], false) = (nl, true) := by
      rw [← h2, ← hflag]
    refine ⟨A, B, by rw [← hpair]; exact hdec, hlen, ?_, by rw [← h1]⟩
    rw [← h1]
    show st.entries.set i ((st.entries.getD i ([], false)).1, false) = A ++ (nl, false) :: B
    rw [hpair, hset]
  case isFalse => simp at h

lemma pointsOf_append (A B : List Polyline) : pointsOf (A ++ B) = pointsOf A + pointsOf B := by
  simp [pointsOf]

lemma pop_some_liveLines {st : LineIndex} {i : Nat} {st' : LineIndex} {nl : Polyline}
    (h : pop st i = (st', some nl)) :
    ∃ X Y, liveLines st = X ++ nl :: Y ∧ liveLines st' = X ++ Y ∧
      st'.reverse = st.reverse := by
  rcases pop_some_spec h with ⟨A, B, hdec, _, hdec', hrev⟩
  refine ⟨(A.filter (·.2)).map (·.1), (B.filter (·.2)).map (·.1), ?_, ?_, hrev⟩
  · simp [liveLines, hdec, List.filter_append]
  · simp [liveLines, hdec', List.filter_append]

lemma pop_some_liveCount {st : LineIndex} {i : Nat} {st' : LineIndex} {nl : Polyline}
    (h : pop st i = (st', some nl)) : liveCount st = liveCount st' + 1 := by
  rcases pop_some_liveLines h with ⟨X, Y, h1, h2, _⟩
  rw [liveCount_eq_length_liveLines, liveCount_eq_length_liveLines, h1, h2]
  simp
  omega

lemma pop_some_pointsOf {st : LineIndex} {i : Nat} {st' : LineIndex} {nl : Polyline}
    (h : pop st i = (st', some nl)) :
    pointsOf (liveLines st) = pointsOf (liveLines st') + nl.length := by
  rcases pop_some_liveLines h with ⟨X, Y, h1, h2, _⟩
  rw [h1, h2, pointsOf_append, pointsOf_append]
  simp [pointsOf]
  omega

lemma pop_some_mem {st : LineIndex} {i : Nat} {st' : LineIndex} {nl : Polyline}
    (h : pop st i = (st', some nl)) : nl ∈ liveLines st := by
  rcases pop_some_liveLines h with ⟨X, Y, h1, _, _⟩
  rw [h1]
  simp

lemma pop_some_subset {st : LineIndex} {i : Nat} {st' : LineIndex} {nl : Polyline}
    (h : pop st i = (st', some nl)) : ∀ x ∈ liveLines st', x ∈ liveLines st := by
  rcases pop_some_liveLines h with ⟨X, Y, h1, h2, _⟩
  intro x hx
  rw [h2] at hx
  rw [h1]
  rcases List.mem_append.mp hx with hx | hx
  · exact List.mem_append.mpr (Or.inl hx)
  · exact List.mem_append.mpr (Or.inr (List.mem_cons_of_mem _ hx))

lemma popFront_some_liveLines {st st' : LineIndex} {l : Polyline}
    (h : popFront st = (st', some l)) :
    ∃ X Y, liveLines st = X ++ l :: Y ∧ liveLines st' = X ++ Y ∧
      st'.reverse = st.reverse := by
  unfold popFront at h
  split at h
  · simp at h
  · exact pop_some_liveLines h

lemma popFront_none {st st' : LineIndex} (h : popFront st = (st', none)) :
    st' = st ∧ liveCount st = 0 := by
  unfold popFront at h
  split at h
  case h_1 hidx =>
    refine ⟨(Prod.mk.injEq _ _ _ _ ▸ h).1.symm ▸ rfl, ?_⟩
    · have := List.findIdx?_eq_none_iff.mp hidx
      simp only [liveCount]
      exact List.countP_eq_zero.mpr fun e he => by simp [this e he]
  case h_2 idx hidx =>
    exfalso
    rcases findIdx?_decomp hidx with ⟨A, x, B, hdec, hlen, hx⟩
    simp only [pop, hdec, ← hlen, getD_append_length] at h
    rw [if_pos hx] at h
    simp at h

/-! ### Query lemmas -/

lemma findNearestWithinInIndex_false_some {avail : List Bool} {pts : List Point}
    {p : Point} {m : ℚ} {i : Nat} {d : ℚ}
    (h : findNearestWithinInIndex avail pts p m = (false, some i, d)) :
    avail.getD i false = true ∧ i < pts.length := by
  simp only [findNearestWithinInIndex] at h
  split at h
  · simp at h
  · split at h
    case h_1 e heq =>
      injection h with hb hrest
      injection hrest with hi hd
      injection hi with hi
      subst hi
      refine ⟨by simpa using List.find?_some heq, ?_⟩
      have hmem : e ∈ inRangePairs pts p m :=
        mem_sortPairs.mp (List.mem_of_mem_take (List.mem_of_find?_eq_some heq))
      exact (mem_distPairs.mp (mem_inRangePairs.mp hmem).2.1).1
    case h_2 => simp at h

lemma findNearestInIndex_some_spec {avail : List Bool} {pts : List Point}
    {p : Point} {i : Nat} {d : ℚ}
    (h : findNearestInIndex avail pts p = (some i, d)) :
    avail.getD i false = true ∧ i < pts.length := by
  simp only [findNearestInIndex] at h
  split at h
  case h_1 e heq =>
    injection h with hi hd
    injection hi with hi
    subst hi
    refine ⟨by simpa using List.find?_some heq, ?_⟩
    have hmem : e ∈ distPairs pts p :=
      mem_sortPairs.mp (List.mem_of_mem_take (List.mem_of_find?_eq_some heq))
    exact (mem_distPairs.mp hmem).1
  case h_2 => simp at h

lemma findNearestWithinInIndex_noTomb {avail : List Bool} {pts : List Point}
    {p : Point} {m : ℚ} (hall : ∀ b ∈ avail, b = true)
    (hlen : pts.length ≤ avail.length) :
    (findNearestWithinInIndex avail pts p m).1 = false := by
  simp only [findNearestWithinInIndex]
  split
  case isTrue hcond =>
    exfalso
    rw [Bool.and_eq_true, decide_eq_true_iff] at hcond
    obtain ⟨h50, hempty⟩ := hcond
    have hslen : ((sortPairs (inRangePairs pts p m)).take 50).length = 50 := by
      rw [List.length_take, length_sortPairs]
      omega
    have hpos : 0 < ((sortPairs (inRangePairs pts p m)).take 50).length := by omega
    rcases List.exists_mem_of_length_pos hpos with ⟨e, he⟩
    have hfalse := List.all_eq_true.mp hempty e he
    have hi : e.1 < pts.length := by
      have hmem : e ∈ inRangePairs pts p m :=
        mem_sortPairs.mp (List.mem_of_mem_take he)
      exact (mem_distPairs.mp (mem_inRangePairs.mp hmem).2.1).1
    have htrue : avail.getD e.1 false = true :=
      hall _ (getD_mem_of_lt avail false (Nat.lt_of_lt_of_le hi hlen))
    rw [List.getD_eq_getElem?_getD] at htrue
    simp [htrue] at hfalse
  case isFalse =>
    split <;> rfl

lemma findNearestWithinLoop_some_spec {p : Point} {m : ℚ} {st : LineIndex} {fuel : Nat}
    {st1 : LineIndex} {idx : Option Nat} {d : ℚ} {ridx : Option Nat} {rd : ℚ}
    (h : findNearestWithinLoop p m st fuel = some (st1, idx, d, ridx, rd)) :
    findNearestWithinInIndex (availList st1) (startPts st1) p m = (false, idx, d) ∧
      (st1.reverse = true →
        findNearestWithinInIndex (availList st1) (endPts st1) p m = (false, ridx, rd)) ∧
      st1.reverse = st.reverse ∧ liveLines st1 = liveLines st := by
  induction fuel generalizing st with
  | zero => simp [findNearestWithinLoop] at h
  | succ fuel ih =>
    rw [findNearestWithinLoop] at h
    split at h
    case h_1 heq =>
      split at h
      case h_1 => exact Option.noConfusion h
      case h_2 st2 hri =>
        rcases ih h with ⟨c1, c2, c3, c4⟩
        exact ⟨c1, c2, by rw [c3, reverse_reindex hri], by rw [c4, liveLines_reindex hri]⟩
    case h_2 idx0 d0 heq =>
      split at h
      case isTrue hrev =>
        split at h
        case h_1 heq2 =>
          split at h
          case h_1 => exact Option.noConfusion h
          case h_2 st2 hri =>
            rcases ih h with ⟨c1, c2, c3, c4⟩
            exact ⟨c1, c2, by rw [c3, reverse_reindex hri], by rw [c4, liveLines_reindex hri]⟩
        case h_2 ridx0 rd0 heq2 =>
          simp only [Option.some.injEq, Prod.mk.injEq] at h
          obtain ⟨h1, h2, h3, h4, h5⟩ := h
          subst h1; subst h2; subst h3; subst h4; subst h5
          exact ⟨heq, fun _ => heq2, rfl, rfl⟩
      case isFalse hrev =>
        simp only [Option.some.injEq, Prod.mk.injEq] at h
        obtain ⟨h1, h2, h3, h4, h5⟩ := h
        subst h1; subst h2; subst h3; subst h4; subst h5
        exact ⟨heq, fun hr => absurd hr (by simpa using hrev), rfl, rfl⟩

lemma findNearestWithin_some_spec {st : LineIndex} {p : Point} {m : ℚ}
    {st1 : LineIndex} {io : Option Nat} {rev : Bool}
    (h : findNearestWithin st p m = some (st1, io, rev)) :
    liveLines st1 = liveLines st ∧ st1.reverse = st.reverse ∧
      (∀ i, io = some i →
        (st1.entries.getD i ([], false)).2 = true ∧ i < st1.entries.length) ∧
      (st.reverse = false → rev = false) := by
  unfold findNearestWithin at h
  split at h
  case h_1 => exact absurd h (by simp)
  case h_2 st' idx d ridx rd heq =>
    rcases findNearestWithinLoop_some_spec heq with ⟨c1, c2, c3, c4⟩
    have transfer : ∀ j : Nat, (availList st').getD j false = true → j < st'.entries.length →
        (st'.entries.getD j ([], false)).2 = true ∧ j < st'.entries.length := by
      intro j hj hjl
      exact ⟨by rw [← availList_getD st' hjl]; exact hj, hjl⟩
    split at h
    case isTrue hrev =>
      split at h
      case h_1 =>
        simp only [Option.some.injEq, Prod.mk.injEq] at h
        obtain ⟨e1, e2, e3⟩ := h
        subst e1; subst e2; subst e3
        refine ⟨c4, c3, ?_, ?_⟩
        · intro i hi
          exact nomatch hi
        · intro hf
          rfl
      case h_2 i =>
        simp only [Option.some.injEq, Prod.mk.injEq] at h
        obtain ⟨e1, e2, e3⟩ := h
        subst e1; subst e2; subst e3
        refine ⟨c4, c3, fun j hj => ?_, fun hf => rfl⟩
        cases hj
        rcases findNearestWithinInIndex_false_some c1 with ⟨ha, hl⟩
        exact transfer _ ha (by rwa [length_startPts] at hl)
      case h_3 r =>
        simp only [Option.some.injEq, Prod.mk.injEq] at h
        obtain ⟨e1, e2, e3⟩ := h
        subst e1; subst e2; subst e3
        refine ⟨c4, c3, fun j hj => ?_,
          fun hf => absurd (hf.symm.trans (c3.symm.trans hrev)) Bool.false_ne_true⟩
        cases hj
        rcases findNearestWithinInIndex_false_some (c2 hrev) with ⟨ha, hl⟩
        exact transfer _ ha (by rwa [length_endPts] at hl)
      case h_4 i r =>
        split at h <;>
          · simp only [Option.some.injEq, Prod.mk.injEq] at h
            obtain ⟨e1, e2, e3⟩ := h
            subst e1; subst e2; subst e3
            refine ⟨c4, c3, fun j hj => ?_, fun hf => ?_⟩
            · cases hj
              first
              | (rcases findNearestWithinInIndex_false_some (c2 hrev) with ⟨ha, hl⟩
                 exact transfer _ ha (by rwa [length_endPts] at hl))
              | (rcases findNearestWithinInIndex_false_some c1 with ⟨ha, hl⟩
                 exact transfer _ ha (by rwa [length_startPts] at hl))
            · exact absurd (hf.symm.trans (c3.symm.trans hrev)) Bool.false_ne_true
    case isFalse hrev =>
      simp only [Option.some.injEq, Prod.mk.injEq] at h
      obtain ⟨e1, e2, e3⟩ := h
      subst e1; subst e2; subst e3
      refine ⟨c4, c3, fun j hj => ?_, fun hf => rfl⟩
      subst hj
      rcases findNearestWithinInIndex_false_some c1 with ⟨ha, hl⟩
      exact transfer _ ha (by rwa [length_startPts] at hl)

lemma liveCount_reindex {st st' : LineIndex} (h : reindex st = some st') :
    liveCount st' = liveCount st := by
  rw [liveCount_eq_length_liveLines, liveCount_eq_length_liveLines, liveLines_reindex h]

lemma findNearestLoop_some_spec {p : Point} {st : LineIndex} {fuel : Nat}
    {st1 : LineIndex} {i : Nat} {rev : Bool}
    (h : findNearestLoop p st fuel = some (st1, i, rev)) :
    (st1.entries.getD i ([], false)).2 = true ∧ i < st1.entries.length ∧
      liveLines st1 = liveLines st ∧ st1.reverse = st.reverse ∧
      (st.reverse = false → rev = false) := by
  induction fuel generalizing st with
  | zero => simp [findNearestLoop] at h
  | succ fuel ih =>
    rw [findNearestLoop] at h
    rcases hq : findNearestInIndex (availList st) (startPts st) p with ⟨idx, d⟩
    rw [hq] at h
    split at h
    split at h
    case isTrue hrev =>
      split at h
      case h_1 i0 r rd heq1 heq2 =>
        injection heq2 with hidx hd
        subst hd
        simp only [Option.some.injEq, Prod.mk.injEq] at h
        obtain ⟨e1, e2⟩ := h
        subst e1
        by_cases hlt : rd < d
        · rw [if_pos hlt] at e2
          obtain ⟨e3, e4⟩ := Prod.mk.injEq .. ▸ e2
          subst e3; subst e4
          rcases findNearestInIndex_some_spec heq1 with ⟨ha, hl⟩
          rw [length_endPts] at hl
          refine ⟨by rw [← availList_getD st hl]; exact ha, hl, rfl, rfl, ?_⟩
          intro hf
          exact absurd (hf.symm.trans hrev) Bool.false_ne_true
        · rw [if_neg hlt] at e2
          obtain ⟨e3, e4⟩ := Prod.mk.injEq .. ▸ e2
          subst e3; subst e4
          rw [hidx] at hq
          rcases findNearestInIndex_some_spec hq with ⟨ha, hl⟩
          rw [length_startPts] at hl
          exact ⟨by rw [← availList_getD st hl]; exact ha, hl, rfl, rfl, fun _ => rfl⟩
      case h_2 =>
        split at h
        case h_1 => exact Option.noConfusion h
        case h_2 st2 hri =>
          rcases ih h with ⟨c1, c2, c3, c4, c5⟩
          refine ⟨c1, c2, by rw [c3, liveLines_reindex hri],
            by rw [c4, reverse_reindex hri], ?_⟩
          intro hf
          exact c5 ((reverse_reindex hri).trans hf)
    case isFalse hrev =>
      split at h
      case h_1 i0 heq1 =>
        simp only [Option.some.injEq, Prod.mk.injEq] at h
        obtain ⟨e1, e2, e3⟩ := h
        subst e1; subst e2; subst e3
        injection heq1 with hidx hd
        rw [hidx] at hq
        rcases findNearestInIndex_some_spec hq with ⟨ha, hl⟩
        rw [length_startPts] at hl
        exact ⟨by rw [← availList_getD st hl]; exact ha, hl, rfl, rfl, fun _ => rfl⟩
      case h_2 =>
        split at h
        case h_1 => exact Option.noConfusion h
        case h_2 st2 hri =>
          rcases ih h with ⟨c1, c2, c3, c4, c5⟩
          refine ⟨c1, c2, by rw [c3, liveLines_reindex hri],
            by rw [c4, reverse_reindex hri], ?_⟩
          intro hf
          exact c5 ((reverse_reindex hri).trans hf)

/-! ### Totality of the query retry loops -/

lemma findNearestInIndex_noTomb (avail : List Bool) (pts : List Point) (p : Point)
    (hall : ∀ b ∈ avail, b = true) (hlen : avail.length = pts.length)
    (hpos : 0 < pts.length) :
    ∃ i d, findNearestInIndex avail pts p = (some i, d) := by
  have hlen2 : 0 < ((sortPairs (distPairs pts p)).take 100).length := by
    rw [List.length_take, length_sortPairs]
    have : (distPairs pts p).length = pts.length := by simp [distPairs]
    omega
  cases hfind : ((sortPairs (distPairs pts p)).take 100).find?
      (fun e => avail.getD e.1 false) with
  | none =>
    exfalso
    rcases List.exists_mem_of_length_pos hlen2 with ⟨e, he⟩
    have hi : e.1 < pts.length :=
      (mem_distPairs.mp (mem_sortPairs.mp (List.mem_of_mem_take he))).1
    have hav : avail.getD e.1 false = true :=
      hall _ (getD_mem_of_lt _ _ (by omega))
    exact absurd hav (by simpa using List.find?_eq_none.mp hfind e he)
  | some e =>
    exact ⟨e.1, e.2, by rw [findNearestInIndex, hfind]⟩

lemma findNearestWithinLoop_noTomb (p : Point) (m : ℚ) (st : LineIndex)
    (hall : ∀ b ∈ availList st, b = true) (fuel : Nat) :
    findNearestWithinLoop p m st (fuel + 1) = findNearestWithinLoop p m st 1 := by
  have h1 : (findNearestWithinInIndex (availList st) (startPts st) p m).1 = false :=
    findNearestWithinInIndex_noTomb hall (by rw [length_availList, length_startPts])
  have h2 : (findNearestWithinInIndex (availList st) (endPts st) p m).1 = false :=
    findNearestWithinInIndex_noTomb hall (by rw [length_availList, length_endPts])
  rcases hq : findNearestWithinInIndex (availList st) (startPts st) p m with ⟨b, idx, d⟩
  rw [hq] at h1
  rcases hq2 : findNearestWithinInIndex (availList st) (endPts st) p m with ⟨b2, ridx, rd⟩
  rw [hq2] at h2
  simp only at h1 h2
  subst h1; subst h2
  cases hrev : st.reverse
  case false =>
    have unf : ∀ j, findNearestWithinLoop p m st (j + 1) = some (st, idx, d, none, 0) := by
      intro j
      rw [findNearestWithinLoop, hq]
      simp [hrev]
    rw [unf fuel]
    exact (unf 0).symm
  case true =>
    have unf : ∀ j, findNearestWithinLoop p m st (j + 1) = some (st, idx, d, ridx, rd) := by
      intro j
      rw [findNearestWithinLoop, hq]
      simp [hrev, hq2]
    rw [unf fuel]
    exact (unf 0).symm

lemma findNearestWithinLoop_stable (p : Point) (m : ℚ) (st : LineIndex) (fuel : Nat)
    (hf : 2 ≤ fuel) :
    findNearestWithinLoop p m st fuel = findNearestWithinLoop p m st 2 := by
  obtain ⟨k, rfl⟩ : ∃ k, fuel = k + 2 := ⟨fuel - 2, by omega⟩
  rcases hq : findNearestWithinInIndex (availList st) (startPts st) p m with ⟨b, idx, d⟩
  cases b
  case true =>
    have unf : ∀ j, findNearestWithinLoop p m st (j + 1) =
        match reindex st with
        | none => none
        | some st2 => findNearestWithinLoop p m st2 j := by
      intro j
      rw [findNearestWithinLoop, hq]
    rw [unf (k + 1)]
    have e1 : findNearestWithinLoop p m st 2 =
        match reindex st with
        | none => none
        | some st2 => findNearestWithinLoop p m st2 1 := unf 1
    rw [e1]
    cases hri : reindex st with
    | none => rfl
    | some st2 =>
      show findNearestWithinLoop p m st2 (k + 1) = findNearestWithinLoop p m st2 1
      exact findNearestWithinLoop_noTomb p m st2 (availList_reindex_all_true hri) k
  case false =>
    cases hrev : st.reverse
    case false =>
      have unf : ∀ j, findNearestWithinLoop p m st (j + 1) = some (st, idx, d, none, 0) := by
        intro j
        rw [findNearestWithinLoop, hq]
        simp [hrev]
      rw [unf (k + 1)]
      exact (unf 1).symm
    case true =>
      rcases hq2 : findNearestWithinInIndex (availList st) (endPts st) p m with ⟨b2, ridx, rd⟩
      cases b2
      case false =>
        have unf : ∀ j, findNearestWithinLoop p m st (j + 1) = some (st, idx, d, ridx, rd) := by
          intro j
          rw [findNearestWithinLoop, hq]
          simp [hrev, hq2]
        rw [unf (k + 1)]
        exact (unf 1).symm
      case true =>
        have unf : ∀ j, findNearestWithinLoop p m st (j + 1) =
            match reindex st with
            | none => none
            | some st2 => findNearestWithinLoop p m st2 j := by
          intro j
          rw [findNearestWithinLoop, hq]
          simp [hrev, hq2]
        rw [unf (k + 1)]
        have e1 : findNearestWithinLoop p m st 2 =
            match reindex st with
            | none => none
            | some st2 => findNearestWithinLoop p m st2 1 := unf 1
        rw [e1]
        cases hri : reindex st with
        | none => rfl
        | some st2 =>
          show findNearestWithinLoop p m st2 (k + 1) = findNearestWithinLoop p m st2 1
          exact findNearestWithinLoop_noTomb p m st2 (availList_reindex_all_true hri) k

lemma liveCount_le_length (st : LineIndex) : liveCount st ≤ st.entries.length :=
  List.countP_le_length _

lemma findNearestLoop_total (st : LineIndex) (p : Point) (hlive : 0 < liveCount st) :
    ∃ r, findNearestLoop p st 2 = some r := by
  have step : ∀ st' : LineIndex, (∀ b ∈ availList st', b = true) → 0 < liveCount st' →
      ∃ r, findNearestLoop p st' 1 = some r := by
    intro st' hall hl
    have hpos : 0 < st'.entries.length :=
      Nat.lt_of_lt_of_le hl (liveCount_le_length st')
    rcases findNearestInIndex_noTomb (availList st') (startPts st') p hall
      (by rw [length_availList, length_startPts]) (by rwa [length_startPts]) with ⟨i, d, hq⟩
    rcases findNearestInIndex_noTomb (availList st') (endPts st') p hall
      (by rw [length_availList, length_endPts]) (by rwa [length_endPts]) with ⟨r, rd, hq2⟩
    cases hrev : st'.reverse
    · exact ⟨(st', i, false), by rw [findNearestLoop, hq]; simp [hrev]⟩
    · by_cases hlt : rd < d
      · exact ⟨(st', r, true), by rw [findNearestLoop, hq]; simp [hrev, hq2, hlt]⟩
      · exact ⟨(st', i, false), by rw [findNearestLoop, hq]; simp [hrev, hq2, hlt]⟩
  obtain ⟨str, hri⟩ := reindex_some_of_live hlive
  have hlive' : 0 < liveCount str := by rwa [liveCount_reindex hri]
  rw [findNearestLoop]
  rcases hq : findNearestInIndex (availList st) (startPts st) p with ⟨idx, d⟩
  cases hrev : st.reverse
  case false =>
    cases idx with
    | some i => exact ⟨(st, i, false), by simp [hrev]⟩
    | none =>
      rcases step str (availList_reindex_all_true hri) hlive' with ⟨r, hr⟩
      exact ⟨r, by simp [hrev, hri, hr]⟩
  case true =>
    rcases hq2 : findNearestInIndex (availList st) (endPts st) p with ⟨ridx, rd⟩
    cases idx with
    | none =>
      rcases step str (availList_reindex_all_true hri) hlive' with ⟨r, hr⟩
      exact ⟨r, by simp [hrev, hq2, hri, hr]⟩
    | some i =>
      cases ridx with
      | none =>
        rcases step str (availList_reindex_all_true hri) hlive' with ⟨r, hr⟩
        exact ⟨r, by simp [hrev, hq2, hri, hr]⟩
      | some r =>
        by_cases hlt : rd < d
        · exact ⟨(st, r, true), by simp [hrev, hq2, hlt]⟩
        · exact ⟨(st, i, false), by simp [hrev, hq2, hlt]⟩

lemma findNearest_total (st : LineIndex) (p : Point) (hlive : 0 < liveCount st) :
    ∃ r, findNearest st p = some r :=
  findNearestLoop_total st p hlive

/-! ### Chain-growing loop lemmas -/

set_option maxHeartbeats 2000000 in
lemma mergeChain_zero (noFlip : Bool) (tol : ℚ) (st : LineIndex) (line : Polyline) :
    mergeChain noFlip tol st line 0 = none := by
  rw [mergeChain]

set_option maxHeartbeats 2000000 in
lemma linemergeLoop_zero (noFlip : Bool) (tol : ℚ) (st : LineIndex) :
    linemergeLoop noFlip tol st 0 = none := by
  rw [linemergeLoop]

set_option maxHeartbeats 2000000 in
lemma linesortLoop_zero (st : LineIndex) (cur : Polyline) :
    linesortLoop st cur 0 = none := by
  rw [linesortLoop]

lemma length_splice {l1 l2 : Polyline} (h1 : l1 ≠ []) (h2 : l2 ≠ []) :
    (splice l1 l2).length + 1 = l1.length + l2.length := by
  have p1 : 0 < l1.length := List.length_pos.mpr h1
  have p2 : 0 < l2.length := List.length_pos.mpr h2
  simp [splice]
  omega

lemma splice_ne_nil (l1 l2 : Polyline) : splice l1 l2 ≠ [] := by
  simp [splice]

lemma length_flipLine (l : Polyline) : (flipLine l).length = l.length := by
  simp [flipLine]

lemma flipLine_ne_nil {l : Polyline} (h : l ≠ []) : flipLine l ≠ [] := by
  simpa [flipLine] using h

lemma mergeChain_state {noFlip : Bool} {tol : ℚ} {st : LineIndex} {line : Polyline}
    {fuel : Nat} {st' : LineIndex} {chain : Polyline}
    (h : mergeChain noFlip tol st line fuel = some (st', chain)) :
    liveCount st' ≤ liveCount st ∧ (∀ x ∈ liveLines st', x ∈ liveLines st) ∧
      st'.reverse = st.reverse := by
  induction fuel generalizing st line with
  | zero =>
    rw [mergeChain_zero] at h
    exact Option.noConfusion h
  | succ fuel ih =>
    rw [mergeChain] at h
    split at h
    case h_1 => exact absurd h (by simp)
    case h_2 st1 idx rev heq =>
      rcases findNearestWithin_some_spec heq with ⟨s1, s2, _, _⟩
      have l1 : liveCount st1 = liveCount st := by
        rw [liveCount_eq_length_liveLines, liveCount_eq_length_liveLines, s1]
      have m1 : ∀ x ∈ liveLines st1, x ∈ liveLines st := fun x hx => s1 ▸ hx
      split at h
      case h_1 =>
        simp only [Option.some.injEq, Prod.mk.injEq] at h
        obtain ⟨e1, e2⟩ := h
        subst e1; subst e2
        exact ⟨Nat.le_of_eq l1, m1, s2⟩
      case h_2 =>
        split at h
        case h_1 => exact absurd h (by simp)
        case h_2 st2 idx2 rev2 heq2 =>
          rcases findNearestWithin_some_spec heq2 with ⟨t1, t2, _, _⟩
          have l2 : liveCount st2 = liveCount st1 := by
            rw [liveCount_eq_length_liveLines, liveCount_eq_length_liveLines, t1]
          have m2 : ∀ x ∈ liveLines st2, x ∈ liveLines st1 := fun x hx => t1 ▸ hx
          split at h
          case h_1 =>
            simp only [Option.some.injEq, Prod.mk.injEq] at h
            obtain ⟨e1, e2⟩ := h
            subst e1; subst e2
            exact ⟨by omega, fun x hx => m1 _ (m2 _ hx), t2.trans s2⟩
          case h_2 i =>
            split at h
            case h_1 => exact absurd h (by simp)
            case h_2 st3 nl hpop =>
              rcases ih h with ⟨c1, c2, c3⟩
              have l3 := pop_some_liveCount hpop
              have m3 := pop_some_subset hpop
              rcases pop_some_liveLines hpop with ⟨_, _, _, _, hrev3⟩
              exact ⟨by omega, fun x hx => m1 _ (m2 _ (m3 _ (c2 _ hx))),
                c3.trans (hrev3.trans (t2.trans s2))⟩
      case h_3 i hnone =>
        split at h
        case h_1 => exact absurd h (by simp)
        case h_2 st3 nl hpop =>
          rcases ih h with ⟨c1, c2, c3⟩
          have l3 := pop_some_liveCount hpop
          have m3 := pop_some_subset hpop
          rcases pop_some_liveLines hpop with ⟨_, _, _, _, hrev3⟩
          exact ⟨by omega, fun x hx => m1 _ (m3 _ (c2 _ hx)),
            c3.trans (hrev3.trans s2)⟩

lemma pop_of_avail {st : LineIndex} {i : Nat}
    (h : (st.entries.getD i ([], false)).2 = true) :
    pop st i =
      ({ st with entries := st.entries.set i ((st.entries.getD i ([], false)).1, false) },
        some (st.entries.getD i ([], false)).1) := by
  simp only [pop]
  rw [if_pos h]

lemma pointsOf_congr {a b : List Polyline} (h : a = b) : pointsOf a = pointsOf b :=
  congrArg pointsOf h

lemma length_if_flip (b : Bool) (nl : Polyline) :
    (if b then flipLine nl else nl).length = nl.length := by
  cases b <;> simp [length_flipLine]

lemma ne_nil_if_flip {nl : Polyline} (h : nl ≠ []) (b : Bool) :
    (if b then flipLine nl else nl) ≠ [] := by
  cases b <;> simp [flipLine, h]

lemma mergeChain_conserv {noFlip : Bool} {tol : ℚ} :
    ∀ {fuel : Nat} {st : LineIndex} {line : Polyline} {st' : LineIndex} {chain : Polyline},
      mergeChain noFlip tol st line fuel = some (st', chain) →
      (∀ x ∈ liveLines st, x ≠ []) → line ≠ [] →
      (chain.length + pointsOf (liveLines st') + liveCount st
        = line.length + pointsOf (liveLines st) + liveCount st') ∧ chain ≠ [] := by
  intro fuel
  induction fuel with
  | zero =>
    intro st line st' chain h _ _
    rw [mergeChain_zero] at h
    exact Option.noConfusion h
  | succ fuel ih =>
    intro st line st' chain h hN hl
    rw [mergeChain] at h
    split at h
    case h_1 => exact absurd h (by simp)
    case h_2 st1 idx rev heq =>
      rcases findNearestWithin_some_spec heq with ⟨s1, _, _, _⟩
      have hp1 : pointsOf (liveLines st1) = pointsOf (liveLines st) := pointsOf_congr s1
      have hc1 : liveCount st1 = liveCount st := by
        rw [liveCount_eq_length_liveLines, liveCount_eq_length_liveLines, s1]
      have hN1 : ∀ x ∈ liveLines st1, x ≠ [] := fun x hx => hN x (s1 ▸ hx)
      split at h
      case h_1 =>
        simp only [Option.some.injEq, Prod.mk.injEq] at h
        obtain ⟨e1, e2⟩ := h
        subst e1; subst e2
        exact ⟨by omega, hl⟩
      case h_2 =>
        split at h
        case h_1 => exact absurd h (by simp)
        case h_2 st2 idx2 rev2 heq2 =>
          rcases findNearestWithin_some_spec heq2 with ⟨t1, _, _, _⟩
          have hp2 : pointsOf (liveLines st2) = pointsOf (liveLines st1) := pointsOf_congr t1
          have hc2 : liveCount st2 = liveCount st1 := by
            rw [liveCount_eq_length_liveLines, liveCount_eq_length_liveLines, t1]
          have hN2 : ∀ x ∈ liveLines st2, x ≠ [] := fun x hx => hN1 x (t1 ▸ hx)
          split at h
          case h_1 =>
            simp only [Option.some.injEq, Prod.mk.injEq] at h
            obtain ⟨e1, e2⟩ := h
            subst e1; subst e2
            refine ⟨?_, flipLine_ne_nil hl⟩
            rw [length_flipLine]
            omega
          case h_2 i =>
            split at h
            case h_1 => exact absurd h (by simp)
            case h_2 st3 nl hpop =>
              have hnl : nl ≠ [] := hN2 _ (pop_some_mem hpop)
              have hp3 := pop_some_pointsOf hpop
              have hc3 := pop_some_liveCount hpop
              have hN3 : ∀ x ∈ liveLines st3, x ≠ [] :=
                fun x hx => hN2 x (pop_some_subset hpop x hx)
              have hsp : (splice (flipLine line)
                  (if rev2 then flipLine nl else nl)).length + 1
                  = line.length + nl.length := by
                rw [length_splice (flipLine_ne_nil hl) (ne_nil_if_flip hnl rev2),
                  length_flipLine, length_if_flip]
              rcases ih h hN3 (splice_ne_nil _ _) with ⟨e, hch⟩
              exact ⟨by omega, hch⟩
      case h_3 i hnone =>
        split at h
        case h_1 => exact absurd h (by simp)
        case h_2 st3 nl hpop =>
          have hnl : nl ≠ [] := hN1 _ (pop_some_mem hpop)
          have hp3 := pop_some_pointsOf hpop
          have hc3 := pop_some_liveCount hpop
          have hN3 : ∀ x ∈ liveLines st3, x ≠ [] :=
            fun x hx => hN1 x (pop_some_subset hpop x hx)
          have hsp : (splice line (if rev then flipLine nl else nl)).length + 1
              = line.length + nl.length := by
            rw [length_splice hl (ne_nil_if_flip hnl rev), length_if_flip]
          rcases ih h hN3 (splice_ne_nil _ _) with ⟨e, hch⟩
          exact ⟨by omega, hch⟩

lemma spliceFold_concat {sub : List Polyline} (nl : Polyline) (h : sub ≠ []) :
    spliceFold (sub ++ [nl]) = splice (spliceFold sub) nl := by
  cases sub with
  | nil => exact absurd rfl h
  | cons c rest => simp [spliceFold, List.foldl_append]

lemma mergeChain_spliceFold {noFlip : Bool} {tol : ℚ} {lines0 : List Polyline} :
    ∀ {fuel : Nat} {st : LineIndex} {line : Polyline} {st' : LineIndex} {chain : Polyline},
      mergeChain noFlip tol st line fuel = some (st', chain) → noFlip = true →
      (∀ x ∈ liveLines st, x ∈ lines0) → st.reverse = false →
      (∃ sub, sub ≠ [] ∧ (∀ l ∈ sub, l ∈ lines0) ∧ line = spliceFold sub) →
      ∃ sub, sub ≠ [] ∧ (∀ l ∈ sub, l ∈ lines0) ∧ chain = spliceFold sub := by
  intro fuel
  induction fuel with
  | zero =>
    intro st line st' chain h _ _ _ _
    rw [mergeChain_zero] at h
    exact Option.noConfusion h
  | succ fuel ih =>
    intro st line st' chain h hNF hsub hrev hline
    rw [mergeChain] at h
    split at h
    case h_1 => exact absurd h (by simp)
    case h_2 st1 idx rev heq =>
      rcases findNearestWithin_some_spec heq with ⟨s1, s2, _, srev⟩
      have hrev1 : st1.reverse = false := by rw [s2, hrev]
      have hrevv : rev = false := srev hrev
      have hsub1 : ∀ x ∈ liveLines st1, x ∈ lines0 := fun x hx => hsub x (s1 ▸ hx)
      split at h
      case h_1 =>
        simp only [Option.some.injEq, Prod.mk.injEq] at h
        obtain ⟨e1, e2⟩ := h
        subst e1; subst e2
        exact hline
      case h_2 =>
        exact absurd hNF (by simp)
      case h_3 i hnone =>
        split at h
        case h_1 => exact absurd h (by simp)
        case h_2 st3 nl hpop =>
          simp only [hrevv, Bool.false_eq_true, if_false] at h
          have hnl : nl ∈ lines0 := hsub1 _ (pop_some_mem hpop)
          rcases pop_some_liveLines hpop with ⟨_, _, _, _, hrev3⟩
          rcases hline with ⟨sub, hne, hmem, hfold⟩
          refine ih h hNF (fun x hx => hsub1 x (pop_some_subset hpop x hx))
            (hrev3.trans hrev1) ⟨sub ++ [nl], by simp, ?_, ?_⟩
          · intro l hlmem
            rcases List.mem_append.mp hlmem with hm | hm
            · exact hmem l hm
            · rw [List.mem_singleton.mp hm]
              exact hnl
          · rw [spliceFold_concat nl hne, ← hfold]

lemma popFront_some_facts {st st' : LineIndex} {l : Polyline}
    (h : popFront st = (st', some l)) :
    liveCount st = liveCount st' + 1 ∧
      pointsOf (liveLines st) = pointsOf (liveLines st') + l.length ∧
      l ∈ liveLines st ∧ (∀ x ∈ liveLines st', x ∈ liveLines st) ∧
      st'.reverse = st.reverse := by
  unfold popFront at h
  split at h
  · simp at h
  · rcases pop_some_liveLines h with ⟨X, Y, _, _, hrev⟩
    exact ⟨pop_some_liveCount h, pop_some_pointsOf h, pop_some_mem h,
      pop_some_subset h, hrev⟩

lemma linemergeLoop_conserv {noFlip : Bool} {tol : ℚ} :
    ∀ {fuel : Nat} {st : LineIndex} {out : List Polyline},
      linemergeLoop noFlip tol st fuel = some out →
      (∀ x ∈ liveLines st, x ≠ []) →
      pointsOf out + liveCount st = pointsOf (liveLines st) + out.length := by
  intro fuel
  induction fuel with
  | zero =>
    intro st out h _
    rw [linemergeLoop_zero] at h
    exact Option.noConfusion h
  | succ fuel ih =>
    intro st out h hN
    rw [linemergeLoop] at h
    split at h
    case h_1 st1 hpf =>
      simp only [Option.some.injEq] at h
      subst h
      rcases popFront_none hpf with ⟨_, hc⟩
      have hempty : liveLines st = [] := by
        have hlen := liveCount_eq_length_liveLines st
        rw [hc] at hlen
        exact List.length_eq_zero.mp hlen.symm
      simp [pointsOf, hempty, hc]
    case h_2 st1 line hpf =>
      split at h
      case h_1 => exact absurd h (by simp)
      case h_2 st2 chain hmc =>
        cases hrec : linemergeLoop noFlip tol st2 fuel with
        | none =>
          rw [hrec] at h
          simp at h
        | some out2 =>
          rw [hrec] at h
          simp only [Option.map_some', Option.some.injEq] at h
          subst h
          rcases popFront_some_facts hpf with ⟨hc1, hp1, hmem, hsubs, _⟩
          have hline : line ≠ [] := hN _ hmem
          have hN1 : ∀ x ∈ liveLines st1, x ≠ [] := fun x hx => hN x (hsubs x hx)
          rcases mergeChain_conserv hmc hN1 hline with ⟨heq, hchne⟩
          rcases mergeChain_state hmc with ⟨_, hsubs2, _⟩
          have ih2 := ih hrec (fun x hx => hN1 x (hsubs2 x hx))
          have hpc : pointsOf (chain :: out2) = chain.length + pointsOf out2 := by
            simp [pointsOf]
          rw [hpc, List.length_cons]
          omega

lemma linemergeLoop_spliceFold {noFlip : Bool} {tol : ℚ} {lines0 : List Polyline} :
    ∀ {fuel : Nat} {st : LineIndex} {out : List Polyline},
      linemergeLoop noFlip tol st fuel = some out → noFlip = true →
      (∀ x ∈ liveLines st, x ∈ lines0) → st.reverse = false →
      ∀ c ∈ out, ∃ sub, sub ≠ [] ∧ (∀ l ∈ sub, l ∈ lines0) ∧ c = spliceFold sub := by
  intro fuel
  induction fuel with
  | zero =>
    intro st out h _ _ _
    rw [linemergeLoop_zero] at h
    exact Option.noConfusion h
  | succ fuel ih =>
    intro st out h hNF hsub hrev
    rw [linemergeLoop] at h
    split at h
    case h_1 st1 hpf =>
      simp only [Option.some.injEq] at h
      subst h
      intro c hc
      cases hc
    case h_2 st1 line hpf =>
      split at h
      case h_1 => exact absurd h (by simp)
      case h_2 st2 chain hmc =>
        cases hrec : linemergeLoop noFlip tol st2 fuel with
        | none =>
          rw [hrec] at h
          simp at h
        | some out2 =>
          rw [hrec] at h
          simp only [Option.map_some', Option.some.injEq] at h
          subst h
          rcases popFront_some_facts hpf with ⟨_, _, hmem, hsubs, hrev1⟩
          have hsub1 : ∀ x ∈ liveLines st1, x ∈ lines0 := fun x hx => hsub x (hsubs x hx)
          have hchain := mergeChain_spliceFold hmc hNF hsub1 (hrev1.trans hrev)
            ⟨[line], by simp, by simpa using hsub line hmem, by simp [spliceFold]⟩
          rcases mergeChain_state hmc with ⟨_, hsubs2, hrev2⟩
          have ihout := ih hrec hNF (fun x hx => hsub1 x (hsubs2 x hx))
            (hrev2.trans (hrev1.trans hrev))
          intro c hc
          rcases List.mem_cons.mp hc with hc | hc
          · rw [hc]
            exact hchain
          · exact ihout c hc

lemma linesortLoop_total :
    ∀ fuel (st : LineIndex) (cur : Polyline), liveCount st < fuel →
      ∃ out, linesortLoop st cur fuel = some out := by
  intro fuel
  induction fuel with
  | zero => intro st cur h; omega
  | succ fuel ih =>
    intro st cur hfuel
    by_cases hl0 : liveCount st = 0
    · exact ⟨[], by rw [linesortLoop]; simp [hl0]⟩
    · rcases findNearest_total st (lineEnd cur) (Nat.pos_of_ne_zero hl0)
        with ⟨⟨st1, i, rev⟩, hq⟩
      rcases findNearestLoop_some_spec hq with ⟨hav, _, hll, _, _⟩
      have hpop := pop_of_avail hav
      have hc1 : liveCount st1 = liveCount st := by
        rw [liveCount_eq_length_liveLines, liveCount_eq_length_liveLines, hll]
      have hc2 := pop_some_liveCount hpop
      rcases ih { st1 with
          entries := st1.entries.set i ((st1.entries.getD i ([], false)).1, false) }
        (if rev then flipLine (st1.entries.getD i ([], false)).1
          else (st1.entries.getD i ([], false)).1) (by omega) with ⟨out, hout⟩
      refine ⟨(if rev then flipLine (st1.entries.getD i ([], false)).1
        else (st1.entries.getD i ([], false)).1) :: out, ?_⟩
      rw [linesortLoop, if_neg hl0]
      simp only [hq, hpop, hout, Option.map_some']

lemma linesortLoop_mem (lines0 : List Polyline) :
    ∀ {fuel : Nat} {st : LineIndex} {cur : Polyline} {out : List Polyline},
      linesortLoop st cur fuel = some out →
      (∀ x ∈ liveLines st, x ∈ lines0) → st.reverse = false →
      ∀ l ∈ out, l ∈ lines0 := by
  intro fuel
  induction fuel with
  | zero =>
    intro st cur out h _ _
    rw [linesortLoop_zero] at h
    exact Option.noConfusion h
  | succ fuel ih =>
    intro st cur out h hsub hrev
    rw [linesortLoop] at h
    split at h
    case isTrue =>
      simp only [Option.some.injEq] at h
      subst h
      intro l hl
      cases hl
    case isFalse hl0 =>
      split at h
      case h_1 => exact absurd h (by simp)
      case h_2 st1 i rev hq =>
        rcases findNearestLoop_some_spec hq with ⟨_, _, hll, hrev1, hrevv⟩
        have hrevv2 : rev = false := hrevv hrev
        split at h
        case h_1 => exact absurd h (by simp)
        case h_2 st2 l hpop =>
          cases hrec : linesortLoop st2 (if rev then flipLine l else l) fuel with
          | none =>
            rw [hrec] at h
            simp at h
          | some out2 =>
            rw [hrec] at h
            simp only [Option.map_some', Option.some.injEq] at h
            subst h
            have hsub1 : ∀ x ∈ liveLines st1, x ∈ lines0 := fun x hx => hsub x (hll ▸ hx)
            have hlmem : l ∈ lines0 := hsub1 _ (pop_some_mem hpop)
            rcases pop_some_liveLines hpop with ⟨_, _, _, _, hrev2⟩
            have ihout := ih hrec (fun x hx => hsub1 x (pop_some_subset hpop x hx))
              (hrev2.trans (hrev1.trans hrev))
            intro l0 hl0mem
            rcases List.mem_cons.mp hl0mem with hc | hc
            · rw [hc, hrevv2]
              simpa using hlmem
            · exact ihout l0 hc

lemma liveLines_init (lines : List Polyline) (r : Bool) :
    liveLines { entries := lines.map (·, true), reverse := r } = lines := by
  induction lines with
  | nil => rfl
  | cons a l ih => simpa [liveLines, List.filter_cons] using ih

lemma liveCount_init (lines : List Polyline) (r : Bool) :
    liveCount { entries := lines.map (·, true), reverse := r } = lines.length := by
  rw [liveCount_eq_length_liveLines, liveLines_init]


/-! ### Claim theorems -/

/-- C7: a collection with zero or one polylines is returned unchanged by both
the Merger (`linemerge`) and the TourBuilder (`linesort`), for any tolerance
and reversal flag. -/
theorem claim7_short_input_identity (lines : List Polyline) (tol : ℚ) (noFlip : Bool)
    (h : lines.length < 2) :
    linemerge lines tol noFlip = some lines ∧ linesort lines noFlip = some lines := by
  constructor
  · rw [linemerge, if_pos h]
  · rw [linesort.eq_def, if_pos h]

/-- Witness for C7 at a singleton collection. -/
theorem claim7_witness :
    linemerge [[((0 : ℚ), (0 : ℚ))]] 1 true = some [[(0, 0)]] ∧
      linesort [[((0 : ℚ), (0 : ℚ))]] false = some [[(0, 0)]] :=
  ⟨(claim7_short_input_identity [[(0, 0)]] 1 true (by decide)).1,
   (claim7_short_input_identity [[(0, 0)]] 1 false (by decide)).2⟩

/-- C10: `pop` on an entry that is already unavailable returns `None` and
leaves the whole state (in particular the availability bitset) unchanged,
and `pop_front` on an index with no available entry returns `None` without
modifying any state. -/
theorem claim10_pop_defensive :
    (∀ (st : LineIndex) (idx : Nat), (st.entries.getD idx ([], false)).2 = false →
      pop st idx = (st, none)) ∧
    (∀ st : LineIndex, liveCount st = 0 → popFront st = (st, none)) := by
  constructor
  · intro st idx h
    have h' : (st.entries[idx]?.getD ([], false)).2 = false := by
      rwa [List.getD_eq_getElem?_getD] at h
    simp only [pop]
    rw [if_neg (by simp [h'])]
  · intro st h
    have hall : ∀ x ∈ st.entries, x.2 = false := by
      intro x hx
      simpa using List.countP_eq_zero.mp h x hx
    unfold popFront
    rw [findIdx?_none_of_all hall]

/-- Witness for C10 at a one-entry index whose entry is tombstoned. -/
theorem claim10_witness :
    pop { entries := [([((0 : ℚ), (0 : ℚ))], false)], reverse := false } 0
      = ({ entries := [([(0, 0)], false)], reverse := false }, none) ∧
    popFront { entries := [([((1 : ℚ), (2 : ℚ))], false)], reverse := true }
      = ({ entries := [([(1, 2)], false)], reverse := true }, none) :=
  ⟨claim10_pop_defensive.1 _ 0 (by decide), claim10_pop_defensive.2 _ (by decide)⟩

/-- C3: neither the bounded query (`find_nearest_within`) nor the unbounded
query (`find_nearest`) ever returns the id of a removed (tombstoned) entry:
any returned id is marked available in the state the query leaves behind
(rebuilds renumber ids, so availability is read in the post-query state,
which is the only state in which the id is meaningful). -/
theorem claim3_queries_return_live_ids :
    (∀ (st : LineIndex) (p : Point) (m : ℚ) (st1 : LineIndex) (i : Nat) (rev : Bool),
      findNearestWithin st p m = some (st1, some i, rev) →
      (st1.entries.getD i ([], false)).2 = true) ∧
    (∀ (st : LineIndex) (p : Point) (st1 : LineIndex) (i : Nat) (rev : Bool),
      findNearest st p = some (st1, i, rev) →
      (st1.entries.getD i ([], false)).2 = true) := by
  constructor
  · intro st p m st1 i rev h
    exact ((findNearestWithin_some_spec h).2.2.1 i rfl).1
  · intro st p st1 i rev h
    exact (findNearestLoop_some_spec h).1

/-- Witness for C3: both queries run on concrete states with a tombstone
present, and the returned id is available. -/
theorem claim3_witness :
    (({ entries := [([((5 : ℚ), (5 : ℚ))], false), ([(0, 0)], true)],
        reverse := false } : LineIndex).entries.getD 1 ([], false)).2 = true ∧
    (({ entries := [([((9 : ℚ), (9 : ℚ))], false), ([(1, 1)], true)],
        reverse := true } : LineIndex).entries.getD 1 ([], false)).2 = true :=
  ⟨claim3_queries_return_live_ids.1
      { entries := [([(5, 5)], false), ([(0, 0)], true)], reverse := false } (0, 0) 100
      { entries := [([(5, 5)], false), ([(0, 0)], true)], reverse := false } 1 false
      (by with_unfolding_all decide),
   claim3_queries_return_live_ids.2
      { entries := [([(9, 9)], false), ([(1, 1)], true)], reverse := true } (0, 0)
      { entries := [([(9, 9)], false), ([(1, 1)], true)], reverse := true } 1 false
      (by with_unfolding_all decide)⟩

/-- C5: in a bounded query with end-tracking enabled (`reverse = true`), when
both the start-point and the end-point structure yield an in-range available
candidate, the one at strictly smaller distance is returned, and on an exact
distance tie the start-point candidate (`matchedEnd = false`) wins.
Distances are squared here; the comparison is equivalent to the source's
Euclidean one. -/
theorem claim5_tie_breaking (st : LineIndex) (p : Point) (m : ℚ)
    (i r : Nat) (d rd : ℚ) (hrev : st.reverse = true)
    (h1 : findNearestWithinInIndex (availList st) (startPts st) p m = (false, some i, d))
    (h2 : findNearestWithinInIndex (availList st) (endPts st) p m = (false, some r, rd)) :
    (rd < d → findNearestWithin st p m = some (st, some r, true)) ∧
    (d ≤ rd → findNearestWithin st p m = some (st, some i, false)) := by
  have hloop : findNearestWithinLoop p m st 2 = some (st, some i, d, some r, rd) := by
    rw [findNearestWithinLoop, h1]
    simp [hrev, h2]
  constructor
  · intro hlt
    unfold findNearestWithin
    rw [hloop]
    simp [hrev, hlt]
  · intro hle
    unfold findNearestWithin
    rw [hloop]
    simp [hrev, not_lt.mpr hle]

/-- Witness for C5: a tie (equal squared distances) resolved in favour of the
start-point match, and a strictly closer end-point match winning. -/
theorem claim5_witness :
    findNearestWithin { entries := [([((1 : ℚ), (0 : ℚ)), (3, 0)], true)], reverse := true }
      (2, 0) 10 = some ({ entries := [([(1, 0), (3, 0)], true)], reverse := true },
        some 0, false) ∧
    findNearestWithin { entries := [([((5 : ℚ), (0 : ℚ)), (3, 0)], true)], reverse := true }
      (3, 0) 10 = some ({ entries := [([(5, 0), (3, 0)], true)], reverse := true },
        some 0, true) :=
  ⟨(claim5_tie_breaking _ (2, 0) 10 0 0 1 1 rfl
      (by with_unfolding_all decide) (by with_unfolding_all decide)).2 le_rfl,
   (claim5_tie_breaking _ (3, 0) 10 0 0 4 0 rfl
      (by with_unfolding_all decide) (by with_unfolding_all decide)).1
      (by with_unfolding_all decide)⟩

/-- C9: with reversal enabled (`no_flip = False`), the inner merge loop flips
the chain as soon as the forward search from its end fails, before the
start-side search result is inspected; hence when both searches fail the
chain is emitted with its point order reversed relative to the orientation
it had entering that final iteration — including a polyline that merged with
nothing. -/
theorem claim9_flip_on_forward_failure (st : LineIndex) (line : Polyline) (tol : ℚ)
    (st1 st2 : LineIndex) (rev rev2 : Bool) (fuel : Nat)
    (h1 : findNearestWithin st (lineEnd line) tol = some (st1, none, rev))
    (h2 : findNearestWithin st1 (lineStart line) tol = some (st2, none, rev2)) :
    mergeChain false tol st line (fuel + 1) = some (st2, flipLine line) := by
  rw [mergeChain, h1]
  simp only [h2]

/-- Witness for C9: a lone two-point polyline that merges with nothing is
emitted reversed. -/
theorem claim9_witness :
    mergeChain false 1 { entries := [], reverse := true } [((0 : ℚ), (0 : ℚ)), (1, 0)] 1
      = some ({ entries := [], reverse := true }, [(1, 0), (0, 0)]) :=
  claim9_flip_on_forward_failure { entries := [], reverse := true } [(0, 0), (1, 0)] 1
    { entries := [], reverse := true } { entries := [], reverse := true } false false 0
    (by with_unfolding_all decide) (by with_unfolding_all decide)

set_option maxHeartbeats 2000000 in
lemma linemerge_fifty_coincident :
    linemerge (List.replicate 50 [((0 : ℚ), (0 : ℚ))]) 0 true = none := by
  with_unfolding_all rfl

/-- C4 (amended): a rebuild (`_reindex`) that succeeds preserves the number
of live (available) entries and strictly decreases the total number of
stored entries whenever a tombstone is present; a rebuild fails exactly
when no entry is live, because the KD-tree cannot be built over an empty
point set.  Each query retry loop performs at most one rebuild, so no retry
loop runs forever: the bounded loop's outcome is unchanged by any fuel
beyond 2, and the unbounded loop returns within fuel 2 whenever an entry is
live.  `linesort` returns a result on every finite input, but `linemerge`
does not: on 50 coincident lines the rebuild triggered by its bounded query
runs with zero live entries and the whole run fails. -/
theorem claim4_rebuild_and_termination :
    (∀ st st' : LineIndex, reindex st = some st' → liveCount st' = liveCount st) ∧
    (∀ st st' : LineIndex, reindex st = some st' → (∃ e ∈ st.entries, e.2 = false) →
      st'.entries.length < st.entries.length) ∧
    (∀ st : LineIndex, reindex st = none ↔ liveCount st = 0) ∧
    (∀ (p : Point) (m : ℚ) (st : LineIndex) (fuel : Nat), 2 ≤ fuel →
      findNearestWithinLoop p m st fuel = findNearestWithinLoop p m st 2) ∧
    (∀ (st : LineIndex) (p : Point), 0 < liveCount st →
      ∃ r, findNearestLoop p st 2 = some r) ∧
    (∀ (lines : List Polyline) (noFlip : Bool), (linesort lines noFlip).isSome) ∧
    linemerge (List.replicate 50 [((0 : ℚ), (0 : ℚ))]) 0 true = none := by
  refine ⟨fun st st' h => liveCount_reindex h, ?_, reindex_none_iff,
    findNearestWithinLoop_stable, findNearestLoop_total, ?_, linemerge_fifty_coincident⟩
  · rintro st st' h ⟨e, he, hf⟩
    rcases reindex_some_spec h with ⟨hent, _⟩
    rw [hent]
    have hle : (st.entries.filter (·.2)).length ≤ st.entries.length :=
      List.length_filter_le _ _
    have hne : (st.entries.filter (·.2)).length ≠ st.entries.length := by
      intro heq
      have hall := (List.filter_length_eq_length).mp heq e he
      rw [hf] at hall
      cases hall
    omega
  · intro lines noFlip
    rw [linesort.eq_def]
    split
    · rfl
    · split
      · rfl
      · next l0 rest hlen2 =>
        rcases linesortLoop_total ((l0 :: rest).length + 1)
          { entries := rest.map (·, true), reverse := !noFlip } l0
          (by rw [liveCount_init]; simp; omega) with ⟨out, hout⟩
        rw [hout]
        rfl

/-- Counterexample to C4 as stated: a rebuild does NOT strictly decrease the
number of live (available) entries — on a state with one tombstoned and one
live entry the rebuild succeeds and the live count is 1 both before and
after — and the Merger does not return a result on every finite input: on
50 coincident single-point lines the rebuild triggered by the bounded query
runs with zero live entries, so the KD-tree construction fails and the run
aborts instead of producing a collection. -/
theorem claim4_counterexample :
    reindex (⟨[([((0 : ℚ), (0 : ℚ))], false), ([(1, 1)], true)], false⟩ : LineIndex)
        = some (⟨[([(1, 1)], true)], false⟩ : LineIndex) ∧
    ¬ liveCount (⟨[([((1 : ℚ), (1 : ℚ))], true)], false⟩ : LineIndex)
        < liveCount (⟨[([((0 : ℚ), (0 : ℚ))], false), ([(1, 1)], true)], false⟩ : LineIndex) ∧
    linemerge (List.replicate 50 [((0 : ℚ), (0 : ℚ))]) 0 true = none :=
  ⟨by with_unfolding_all rfl, by decide, linemerge_fifty_coincident⟩

/-- Witness for C4: on concrete states, a successful rebuild keeps the live
count and strictly shrinks the store; the bounded retry loop's outcome at
fuel 3 matches fuel 2; the unbounded loop returns at fuel 2 on a live
state; and `linesort` returns a result on a concrete input. -/
theorem claim4_witness :
    liveCount (⟨[([((1 : ℚ), (1 : ℚ))], true)], false⟩ : LineIndex)
        = liveCount (⟨[([((0 : ℚ), (0 : ℚ))], false), ([(1, 1)], true)], false⟩ : LineIndex) ∧
    (⟨[([((1 : ℚ), (1 : ℚ))], true)], false⟩ : LineIndex).entries.length
        < (⟨[([((0 : ℚ), (0 : ℚ))], false), ([(1, 1)], true)], false⟩ : LineIndex).entries.length ∧
    findNearestWithinLoop ((0 : ℚ), (0 : ℚ)) 1 ⟨[([(0, 0)], true)], false⟩ 3
        = findNearestWithinLoop ((0 : ℚ), (0 : ℚ)) 1 ⟨[([(0, 0)], true)], false⟩ 2 ∧
    (∃ r, findNearestLoop ((0 : ℚ), (0 : ℚ)) ⟨[([(2, 2)], true)], true⟩ 2 = some r) ∧
    (linesort [[((0 : ℚ), (0 : ℚ))], [(1, 1)], [(2, 2)]] true).isSome :=
  ⟨claim4_rebuild_and_termination.1 _ _ (by with_unfolding_all rfl),
   claim4_rebuild_and_termination.2.1 _ _ (by with_unfolding_all rfl)
     ⟨([(0, 0)], false), List.mem_cons_self _ _, rfl⟩,
   claim4_rebuild_and_termination.2.2.2.1 _ _ _ 3 (by decide),
   claim4_rebuild_and_termination.2.2.2.2.1 _ _ (by decide),
   claim4_rebuild_and_termination.2.2.2.2.2.1 _ true⟩

/-- C2: merge conservation — for every input made of nonempty polylines, any
tolerance and either reversal flag, each successful splice consumes exactly
one indexed polyline and one point, so with `merges = |input| − |output|`
the output point count is the input point count minus `merges`; stated
subtraction-free: `points(out) + |input| = points(input) + |output|`. -/
theorem claim2_merge_conservation (lines : List Polyline) (tol : ℚ) (noFlip : Bool)
    (out : List Polyline) (hne : ∀ l ∈ lines, l ≠ [])
    (h : linemerge lines tol noFlip = some out) :
    pointsOf out + lines.length = pointsOf lines + out.length := by
  rw [linemerge] at h
  split at h
  · simp only [Option.some.injEq] at h
    subst h
    rfl
  · have hN : ∀ x ∈ liveLines { entries := lines.map (·, true), reverse := !noFlip },
        x ≠ [] := by
      rw [liveLines_init]
      exact hne
    have hcons := linemergeLoop_conserv h hN
    rwa [liveCount_init, liveLines_init] at hcons

/-- Witness for C2 on the concrete two-line merge scenario: 3 output points
plus 2 input lines equal 4 input points plus 1 output line. -/
theorem claim2_witness :
    pointsOf [[((0 : ℚ), (0 : ℚ)), (101/100, 0), (2, 0)]]
        + ([[((0 : ℚ), (0 : ℚ)), (1, 0)], [(51/50, 0), (2, 0)]] : List Polyline).length
      = pointsOf [[((0 : ℚ), (0 : ℚ)), (1, 0)], [(51/50, 0), (2, 0)]]
        + ([[((0 : ℚ), (0 : ℚ)), (101/100, 0), (2, 0)]] : List Polyline).length :=
  claim2_merge_conservation [[(0, 0), (1, 0)], [(51/50, 0), (2, 0)]] (1/20) true
    [[(0, 0), (101/100, 0), (2, 0)]] (by decide) (by with_unfolding_all decide)

/-- C6: with reversal disabled (`no_flip = True`) no polyline is ever
flipped — every `linesort` output line is literally one of the input lines
(point order intact), and every `linemerge` output chain is the splice of a
nonempty selection of input lines, each taken in its original point
order. -/
theorem claim6_no_flip_preserves_order :
    (∀ (lines out : List Polyline), linesort lines true = some out →
      ∀ l ∈ out, l ∈ lines) ∧
    (∀ (lines : List Polyline) (tol : ℚ) (out : List Polyline),
      linemerge lines tol true = some out →
      ∀ c ∈ out, ∃ sub, sub ≠ [] ∧ (∀ l ∈ sub, l ∈ lines) ∧ c = spliceFold sub) := by
  constructor
  · intro lines out h l hl
    rw [linesort.eq_def] at h
    split at h
    · simp only [Option.some.injEq] at h
      subst h
      exact hl
    · split at h
      · simp only [Option.some.injEq] at h
        subst h
        exact hl
      · next l0 rest hlen2 =>
        cases hrec : linesortLoop { entries := rest.map (·, true), reverse := !true } l0
            ((l0 :: rest).length + 1) with
        | none =>
          rw [hrec] at h
          simp at h
        | some out2 =>
          rw [hrec] at h
          simp only [Option.map_some', Option.some.injEq] at h
          subst h
          rcases List.mem_cons.mp hl with hc | hc
          · rw [hc]
            exact List.mem_cons_self _ _
          · exact linesortLoop_mem (l0 :: rest) hrec
              (fun x hx => List.mem_cons_of_mem _ (by rwa [liveLines_init] at hx))
              rfl l hc
  · intro lines tol out h c hc
    rw [linemerge] at h
    split at h
    · simp only [Option.some.injEq] at h
      subst h
      exact ⟨[c], by simp, by simpa using hc, by simp [spliceFold]⟩
    · exact linemergeLoop_spliceFold h rfl
        (fun x hx => by rwa [liveLines_init] at hx) rfl c hc

/-- Witness for C6: in the concrete `linesort` run the emitted middle line is
an input line verbatim, and the concrete merged chain is the splice of the
two input lines in order. -/
theorem claim6_witness :
    [((0 : ℚ), (2 : ℚ)), (0, 3)] ∈
      [[((0 : ℚ), (0 : ℚ)), (0, 1)], [(5, 5), (5, 6)], [(0, 2), (0, 3)]] ∧
    ∃ sub, sub ≠ [] ∧
      (∀ l ∈ sub, l ∈ [[((0 : ℚ), (0 : ℚ)), (1, 0)], [(51/50, 0), (2, 0)]]) ∧
      [((0 : ℚ), (0 : ℚ)), (101/100, 0), (2, 0)] = spliceFold sub :=
  ⟨claim6_no_flip_preserves_order.1
      [[(0, 0), (0, 1)], [(5, 5), (5, 6)], [(0, 2), (0, 3)]]
      [[(0, 0), (0, 1)], [(0, 2), (0, 3)], [(5, 5), (5, 6)]]
      (by with_unfolding_all decide) _ (by with_unfolding_all decide),
   claim6_no_flip_preserves_order.2
      [[(0, 0), (1, 0)], [(51/50, 0), (2, 0)]] (1/20)
      [[(0, 0), (101/100, 0), (2, 0)]]
      (by with_unfolding_all decide) _ (by with_unfolding_all decide)⟩

/-- C1: merging exactly the polylines [(0,0),(1,0)] and [(1.02,0),(2,0)]
with tolerance 0.05 (coordinates as exact rationals; stroke direction
preserved, `no_flip = True`, the function's default) produces the single
polyline [(0,0),(1.01,0),(2,0)], and the joined point (1.01,0) is the
midpoint of (1,0) and (1.02,0). -/
theorem claim1_concrete_merge :
    linemerge [[((0 : ℚ), (0 : ℚ)), (1, 0)], [(51/50, 0), (2, 0)]] (1/20) true
      = some [[(0, 0), (101/100, 0), (2, 0)]] ∧
    midpoint ((1 : ℚ), (0 : ℚ)) (51/50, 0) = (101/100, 0) := by
  constructor
  · with_unfolding_all decide
  · with_unfolding_all decide

/-! ### Two-line merge evaluation (tolerance boundary) -/

lemma distSq_comm (p q : Point) : distSq p q = distSq q p := by
  simp only [distSq]
  ring

lemma fnwii_no_available {avail : List Bool} {pts : List Point} {p : Point} {m : ℚ}
    (hlen : pts.length < 50) (hav : ∀ i, avail.getD i false = false) :
    findNearestWithinInIndex avail pts p m = (false, none, 0) := by
  have hlenR : (inRangePairs pts p m).length < 50 :=
    Nat.lt_of_le_of_lt (length_inRangePairs_le pts p m) hlen
  have hfind : ((sortPairs (inRangePairs pts p m)).take 50).find?
      (fun e => avail.getD e.1 false) = none :=
    List.find?_eq_none.mpr fun e _ => by
      show ¬(avail.getD e.1 false = true)
      rw [hav e.1]
      simp
  simp only [findNearestWithinInIndex]
  rw [hfind]
  simp [Nat.not_le.mpr hlenR]

lemma fnwii_single_target (avail : List Bool) (pts : List Point) (p : Point) (m : ℚ)
    (t : Nat) (hlen : pts.length < 50)
    (ht : avail.getD t false = true) (hother : ∀ i, i ≠ t → avail.getD i false = false)
    (htlt : t < pts.length) (hm : ¬m < 0) :
    findNearestWithinInIndex avail pts p m =
      if distSq (pts.getD t (0, 0)) p ≤ m ^ 2 then
        (false, some t, distSq (pts.getD t (0, 0)) p)
      else (false, none, 0) := by
  have hlenR : (inRangePairs pts p m).length < 50 :=
    Nat.lt_of_le_of_lt (length_inRangePairs_le pts p m) hlen
  have hsamp : (sortPairs (inRangePairs pts p m)).take 50
      = sortPairs (inRangePairs pts p m) :=
    List.take_of_length_le (by rw [length_sortPairs]; omega)
  by_cases hd : distSq (pts.getD t (0, 0)) p ≤ m ^ 2
  · have hmem : (t, distSq (pts.getD t (0, 0)) p) ∈ sortPairs (inRangePairs pts p m) := by
      rw [mem_sortPairs, mem_inRangePairs]
      exact ⟨hm, mem_distPairs.mpr ⟨htlt, rfl⟩, hd⟩
    have hfind : (sortPairs (inRangePairs pts p m)).find? (fun e => avail.getD e.1 false)
        = some (t, distSq (pts.getD t (0, 0)) p) := by
      apply find?_eq_some_of_unique hmem (by simpa using ht)
      intro x hx hpx
      have hpx' : avail.getD x.1 false = true := hpx
      have hxt : x.1 = t := by
        by_contra hne
        rw [hother x.1 hne] at hpx'
        cases hpx'
      have hxd := (mem_distPairs.mp (mem_inRangePairs.mp (mem_sortPairs.mp hx)).2.1).2
      exact Prod.ext hxt (by rw [hxd, hxt])
    simp only [findNearestWithinInIndex]
    rw [hsamp, hfind, if_pos hd]
    simp [Nat.not_le.mpr hlenR]
  · have hfind : (sortPairs (inRangePairs pts p m)).find?
        (fun e => avail.getD e.1 false) = none := by
      apply List.find?_eq_none.mpr
      intro x hx
      rcases mem_inRangePairs.mp (mem_sortPairs.mp hx) with ⟨_, hxd, hxr⟩
      rcases mem_distPairs.mp hxd with ⟨hx1, hx2⟩
      by_cases hxt : x.1 = t
      · rw [hx2, hxt] at hxr
        exact absurd hxr hd
      · show ¬(avail.getD x.1 false = true)
        rw [hother x.1 hxt]
        simp
    simp only [findNearestWithinInIndex]
    rw [hsamp, hfind, if_neg hd]
    simp [Nat.not_le.mpr hlenR]

lemma two_avail_getD (i : Nat) (hne : i ≠ 1) : ([false, true] : List Bool).getD i false = false := by
  match i with
  | 0 => rfl
  | 1 => exact absurd rfl hne
  | n + 2 => rfl

lemma none_avail_getD (i : Nat) : ([false, false] : List Bool).getD i false = false := by
  match i with
  | 0 => rfl
  | 1 => rfl
  | n + 2 => rfl

lemma linemerge_two {l1 l2 : Polyline} {tol : ℚ} (ht : 0 ≤ tol) :
    linemerge [l1, l2] tol true =
      some (if distSq (lineStart l2) (lineEnd l1) ≤ tol ^ 2
        then [splice l1 l2] else [l1, l2]) := by
  have hm : ¬tol < 0 := not_lt.mpr ht
  have hpf0 : popFront { entries := [(l1, true), (l2, true)], reverse := false }
      = ({ entries := [(l1, false), (l2, true)], reverse := false }, some l1) := rfl
  have hpfB : popFront { entries := [(l1, false), (l2, false)], reverse := false }
      = ({ entries := [(l1, false), (l2, false)], reverse := false }, none) := rfl
  have hq1 : findNearestWithinInIndex
      (availList { entries := [(l1, false), (l2, true)], reverse := false })
      (startPts { entries := [(l1, false), (l2, true)], reverse := false })
      (lineEnd l1) tol
      = if distSq (lineStart l2) (lineEnd l1) ≤ tol ^ 2
        then (false, some 1, distSq (lineStart l2) (lineEnd l1)) else (false, none, 0) := by
    have e1 : availList { entries := [(l1, false), (l2, true)], reverse := false }
        = [false, true] := rfl
    have e2 : startPts { entries := [(l1, false), (l2, true)], reverse := false }
        = [lineStart l1, lineStart l2] := rfl
    rw [e1, e2]
    have h := fnwii_single_target [false, true] [lineStart l1, lineStart l2]
      (lineEnd l1) tol 1 (by simp) rfl two_avail_getD (by simp) hm
    rw [h]
    rfl
  rw [linemerge, if_neg (by simp)]
  by_cases hd : distSq (lineStart l2) (lineEnd l1) ≤ tol ^ 2
  · rw [if_pos hd]
    have hq1p : findNearestWithinInIndex
        (availList { entries := [(l1, false), (l2, true)], reverse := false })
        (startPts { entries := [(l1, false), (l2, true)], reverse := false })
        (lineEnd l1) tol
        = (false, some 1, distSq (lineStart l2) (lineEnd l1)) := by
      rw [hq1, if_pos hd]
    have w1 : findNearestWithin { entries := [(l1, false), (l2, true)], reverse := false }
        (lineEnd l1) tol
        = some ({ entries := [(l1, false), (l2, true)], reverse := false }, some 1, false) := by
      unfold findNearestWithin
      rw [findNearestWithinLoop, hq1p]
      rfl
    have hpop1 : pop { entries := [(l1, false), (l2, true)], reverse := false } 1
        = ({ entries := [(l1, false), (l2, false)], reverse := false }, some l2) := rfl
    have hq2 : findNearestWithinInIndex
        (availList { entries := [(l1, false), (l2, false)], reverse := false })
        (startPts { entries := [(l1, false), (l2, false)], reverse := false })
        (lineEnd (splice l1 l2)) tol = (false, none, 0) := by
      have e1 : availList { entries := [(l1, false), (l2, false)], reverse := false }
          = [false, false] := rfl
      have e2 : startPts { entries := [(l1, false), (l2, false)], reverse := false }
          = [lineStart l1, lineStart l2] := rfl
      rw [e1, e2]
      exact fnwii_no_available (by simp) none_avail_getD
    have w2 : findNearestWithin { entries := [(l1, false), (l2, false)], reverse := false }
        (lineEnd (splice l1 l2)) tol
        = some ({ entries := [(l1, false), (l2, false)], reverse := false }, none, false) := by
      unfold findNearestWithin
      rw [findNearestWithinLoop, hq2]
      rfl
    have hmc : mergeChain true tol { entries := [(l1, false), (l2, true)], reverse := false }
        l1 (liveCount { entries := [(l1, false), (l2, true)], reverse := false } + 1)
        = some ({ entries := [(l1, false), (l2, false)], reverse := false }, splice l1 l2) := by
      show mergeChain true tol { entries := [(l1, false), (l2, true)], reverse := false }
        l1 2 = _
      rw [mergeChain, w1]
      simp only [hpop1, Bool.false_eq_true, if_false]
      rw [mergeChain, w2]
    show linemergeLoop true tol { entries := [(l1, true), (l2, true)], reverse := false } 3
      = some [splice l1 l2]
    rw [linemergeLoop]
    simp only [hpf0, hmc]
    rw [linemergeLoop]
    simp only [hpfB]
    rfl
  · rw [if_neg hd]
    have hq1n : findNearestWithinInIndex
        (availList { entries := [(l1, false), (l2, true)], reverse := false })
        (startPts { entries := [(l1, false), (l2, true)], reverse := false })
        (lineEnd l1) tol = (false, none, 0) := by
      rw [hq1, if_neg hd]
    have w1 : findNearestWithin { entries := [(l1, false), (l2, true)], reverse := false }
        (lineEnd l1) tol
        = some ({ entries := [(l1, false), (l2, true)], reverse := false }, none, false) := by
      unfold findNearestWithin
      rw [findNearestWithinLoop, hq1n]
      rfl
    have hmc : mergeChain true tol { entries := [(l1, false), (l2, true)], reverse := false }
        l1 (liveCount { entries := [(l1, false), (l2, true)], reverse := false } + 1)
        = some ({ entries := [(l1, false), (l2, true)], reverse := false }, l1) := by
      show mergeChain true tol { entries := [(l1, false), (l2, true)], reverse := false }
        l1 2 = _
      rw [mergeChain, w1]
    have hpf1 : popFront { entries := [(l1, false), (l2, true)], reverse := false }
        = ({ entries := [(l1, false), (l2, false)], reverse := false }, some l2) := rfl
    have hq3 : findNearestWithinInIndex
        (availList { entries := [(l1, false), (l2, false)], reverse := false })
        (startPts { entries := [(l1, false), (l2, false)], reverse := false })
        (lineEnd l2) tol = (false, none, 0) := by
      have e1 : availList { entries := [(l1, false), (l2, false)], reverse := false }
          = [false, false] := rfl
      have e2 : startPts { entries := [(l1, false), (l2, false)], reverse := false }
          = [lineStart l1, lineStart l2] := rfl
      rw [e1, e2]
      exact fnwii_no_available (by simp) none_avail_getD
    have w3 : findNearestWithin { entries := [(l1, false), (l2, false)], reverse := false }
        (lineEnd l2) tol
        = some ({ entries := [(l1, false), (l2, false)], reverse := false }, none, false) := by
      unfold findNearestWithin
      rw [findNearestWithinLoop, hq3]
      rfl
    have hmc2 : mergeChain true tol { entries := [(l1, false), (l2, false)], reverse := false }
        l2 (liveCount { entries := [(l1, false), (l2, false)], reverse := false } + 1)
        = some ({ entries := [(l1, false), (l2, false)], reverse := false }, l2) := by
      show mergeChain true tol { entries := [(l1, false), (l2, false)], reverse := false }
        l2 1 = _
      rw [mergeChain, w3]
    show linemergeLoop true tol { entries := [(l1, true), (l2, true)], reverse := false } 3
      = some [l1, l2]
    rw [linemergeLoop]
    simp only [hpf0, hmc]
    rw [linemergeLoop]
    simp only [hpf1, hmc2]
    rw [linemergeLoop]
    simp only [hpfB]
    rfl

/-- C8: with exactly two polylines and the default orientation behaviour
(`no_flip = True`), facing endpoints at distance exactly equal to the
tolerance are merged into a single polyline, while facing endpoints at
distance strictly greater than the tolerance are not merged.  The statement
compares squared distances, which is equivalent for a nonnegative
tolerance. -/
theorem claim8_tolerance_boundary {l1 l2 : Polyline} {tol : ℚ}
    (h1 : l1 ≠ []) (h2 : l2 ≠ []) (ht : 0 ≤ tol) :
    (distSq (lineEnd l1) (lineStart l2) = tol ^ 2 →
      linemerge [l1, l2] tol true = some [splice l1 l2]) ∧
    (tol ^ 2 < distSq (lineEnd l1) (lineStart l2) →
      linemerge [l1, l2] tol true = some [l1, l2]) := by
  constructor
  · intro hd
    rw [linemerge_two ht, if_pos (by rw [distSq_comm]; exact le_of_eq hd)]
  · intro hd
    rw [linemerge_two ht, if_neg (by rw [distSq_comm]; exact not_le.mpr hd)]

/-- Witness for C8: unit segments with facing endpoints at distance exactly
equal to tolerance 1 merge into a single polyline; with tolerance 1/2 the
same distance-1 gap does not merge. -/
theorem claim8_witness :
    linemerge [[((0 : ℚ), (0 : ℚ)), (1, 0)], [(2, 0), (3, 0)]] 1 true
      = some [[(0, 0), (3/2, 0), (3, 0)]] ∧
    linemerge [[((0 : ℚ), (0 : ℚ)), (1, 0)], [(2, 0), (3, 0)]] (1/2) true
      = some [[(0, 0), (1, 0)], [(2, 0), (3, 0)]] := by
  constructor
  · have h := (@claim8_tolerance_boundary [(0, 0), (1, 0)] [(2, 0), (3, 0)] 1
      (by decide) (by decide) (by decide)).1 (by with_unfolding_all decide)
    rw [h]
    with_unfolding_all decide
  · have h := (@claim8_tolerance_boundary [(0, 0), (1, 0)] [(2, 0), (3, 0)] (1/2)
      (by decide) (by decide) (by with_unfolding_all decide)).2
      (by with_unfolding_all decide)
    rw [h]

end Vpype
